import Mathlib

/-!
Verification of the store-and-forward flood-relay engine of the CPS_WSAN
cluster-head node (`nrf52Tutorial/ble_aggregator/main.c`) and of the GATT
transmit retry queue (`ble_thingy_client/ble_thingy_uis_c.c`).

The C globals are modelled as explicit state structures; each `vf_*`
definition below is a shallow embedding of the C function of the same name,
with machine integers as `Nat` (reduced `% 256` / `% 65536` exactly where the
C type would wrap).  The raw 32-byte block layout of `g_userdata` is modelled
as a `Block` structure whose fields correspond to byte offsets 0..4 and the
payload region from offset 5.
-/

namespace CPSWSAN

/-- CLUSTER_ID from main.c: this node's own id. -/
def CLUSTER_ID : Nat := 5

/-- SINK_ID from main.c: destination id used for locally originated records. -/
def SINK_ID : Nat := 10

/-- MAX_USERDATA_BUFFER_BLOCK from main.c: number of block-pool slots. -/
def MAX_USERDATA_BUFFER_BLOCK : Nat := 16

/-- MAX_HIST_ADV_BUFF_SIZE from main.c: capacity of the history cache. -/
def MAX_HIST_ADV_BUFF_SIZE : Nat := 128

/-- Unsigned 8-bit subtraction (the C `a - b` on a `uint8_t`), for `b ≤ 256`. -/
def sub8 (a b : Nat) : Nat := (a + 256 - b) % 256

/-- One element of `g_buff_adv_hist` (struct adv_history_buff_type). -/
structure HistEntry where
  id : Nat
  TTL : Nat
deriving DecidableEq, Repr

/-- The history-cache globals of main.c: the array `g_buff_adv_hist` (128
slots) together with `g_buff_adv_hist_firstpos`, `g_buff_adv_hist_lastpos`
and `g_buff_adv_hist_size`. -/
structure HistState where
  entries : List HistEntry
  firstpos : Nat
  lastpos : Nat
  size : Nat
deriving DecidableEq, Repr

/-- Array read `g_buff_adv_hist[i]` (out-of-range reads give a zero entry). -/
def entryAt (h : HistState) (i : Nat) : HistEntry := h.entries.getD i ⟨0, 0⟩

/-- The C loop `for(i=lo;i<lo+n;i++) if(id==g_buff_adv_hist[i].id) return i;`,
as first match in the half-open range starting at `lo` of length `n`. -/
def histScan (entries : List HistEntry) (id : Nat) (lo n : Nat) : Option Nat :=
  match n with
  | 0 => none
  | n + 1 =>
      if (entries.getD lo ⟨0, 0⟩).id = id then some lo
      else histScan entries id (lo + 1) n

/-- Embedding of `vf_find_id_buff_adv_hist3`: position of `id` in the live
window of the history ring, `65535` (0xFFFF) when absent. -/
def vf_find_id_buff_adv_hist3 (h : HistState) (id : Nat) : Nat :=
  if h.size = 0 then 65535
  else if h.firstpos < h.lastpos then
    match histScan h.entries id h.firstpos (h.lastpos - h.firstpos) with
    | some i => i
    | none => 65535
  else
    match histScan h.entries id h.firstpos (MAX_HIST_ADV_BUFF_SIZE - h.firstpos) with
    | some i => i
    | none =>
      match histScan h.entries id 0 h.lastpos with
      | some i => i
      | none => 65535

/-- Embedding of `vf_add_buff_adv_hist3` (state part; the C return value is
ignored by every caller): no-op when the id is already present, otherwise
write `{id, TTL=10}` at `lastpos`, advance `lastpos` with wraparound, pull
`firstpos` along when the ring was full, and bump `size` when below
capacity. -/
def vf_add_buff_adv_hist3 (h : HistState) (ids : Nat) : HistState :=
  if vf_find_id_buff_adv_hist3 h ids ≠ 65535 then h
  else
    let entries' := h.entries.set h.lastpos ⟨ids, 10⟩
    let lastpos' := if h.lastpos + 1 = MAX_HIST_ADV_BUFF_SIZE then 0 else h.lastpos + 1
    let firstpos' := if h.size ≠ MAX_HIST_ADV_BUFF_SIZE then h.firstpos else lastpos'
    let size' := if h.size < MAX_HIST_ADV_BUFF_SIZE then h.size + 1 else h.size
    { entries := entries', firstpos := firstpos', lastpos := lastpos', size := size' }

/-- Well-formedness of the history ring: radius bounds and the ring equation
relating `lastpos` to `firstpos + size` (all maintained by the code). -/
def HistWF (h : HistState) : Prop :=
  h.entries.length = 128 ∧ h.firstpos < 128 ∧ h.lastpos < 128 ∧
  h.size ≤ 128 ∧ h.lastpos = (h.firstpos + h.size) % 128

/-- The live window of the history ring in logical (oldest-first) order. -/
def histToList (h : HistState) : List HistEntry :=
  (List.range h.size).map (fun k => entryAt h ((h.firstpos + k) % 128))

theorem getD_set_self {α : Type} (l : List α) (i : Nat) (a d : α) (h : i < l.length) :
    (l.set i a).getD i d = a := by
  rw [List.getD_eq_getElem _ _ (by simpa using h)]
  exact List.getElem_set_self _

theorem getD_set_ne {α : Type} (l : List α) (i j : Nat) (a d : α) (h : i ≠ j) :
    (l.set i a).getD j d = l.getD j d := by
  by_cases hj : j < l.length
  · rw [List.getD_eq_getElem _ _ (by simpa using hj), List.getD_eq_getElem _ _ hj]
    exact List.getElem_set_ne h _
  · rw [List.getD_eq_default _ _ (by simpa using Nat.le_of_not_lt hj),
      List.getD_eq_default _ _ (Nat.le_of_not_lt hj)]

theorem add_present_eq (h : HistState) (ids : Nat)
    (hfind : vf_find_id_buff_adv_hist3 h ids ≠ 65535) :
    vf_add_buff_adv_hist3 h ids = h := by
  simp [vf_add_buff_adv_hist3, hfind]

theorem add_absent_eq (h : HistState) (ids : Nat)
    (hfind : vf_find_id_buff_adv_hist3 h ids = 65535) :
    vf_add_buff_adv_hist3 h ids =
      { entries := h.entries.set h.lastpos ⟨ids, 10⟩,
        firstpos := if h.size ≠ 128 then h.firstpos
          else if h.lastpos + 1 = 128 then 0 else h.lastpos + 1,
        lastpos := if h.lastpos + 1 = 128 then 0 else h.lastpos + 1,
        size := if h.size < 128 then h.size + 1 else h.size } := by
  simp [vf_add_buff_adv_hist3, hfind, MAX_HIST_ADV_BUFF_SIZE]

theorem histWF_add (h : HistState) (ids : Nat) (hwf : HistWF h) :
    HistWF (vf_add_buff_adv_hist3 h ids) := by
  obtain ⟨hlen, hf, hl, hs, hring⟩ := hwf
  by_cases hfind : vf_find_id_buff_adv_hist3 h ids = 65535
  · rw [add_absent_eq h ids hfind]
    refine ⟨by simpa using hlen, ?_, ?_, ?_, ?_⟩ <;> dsimp only <;> split_ifs <;> omega
  · rw [add_present_eq h ids hfind]
    exact ⟨hlen, hf, hl, hs, hring⟩

theorem add_size_le (h : HistState) (ids : Nat) (hs : h.size ≤ 128) :
    (vf_add_buff_adv_hist3 h ids).size ≤ 128 := by
  by_cases hfind : vf_find_id_buff_adv_hist3 h ids = 65535
  · rw [add_absent_eq h ids hfind]
    dsimp only
    split_ifs <;> omega
  · rw [add_present_eq h ids hfind]
    exact hs

theorem add_absent_notfull (h : HistState) (ids : Nat) (hwf : HistWF h)
    (hfind : vf_find_id_buff_adv_hist3 h ids = 65535) (hlt : h.size < 128) :
    histToList (vf_add_buff_adv_hist3 h ids) = histToList h ++ [⟨ids, 10⟩] ∧
      (vf_add_buff_adv_hist3 h ids).size = h.size + 1 := by
  obtain ⟨hlen, hf, hl, hs, hring⟩ := hwf
  rw [add_absent_eq h ids hfind]
  constructor
  · unfold histToList entryAt
    dsimp only
    rw [if_pos (show h.size ≠ 128 by omega), if_pos hlt, List.range_succ, List.map_append]
    congr 1
    · refine List.map_congr_left (fun k hk => ?_)
      rw [List.mem_range] at hk
      exact getD_set_ne _ _ _ _ _ (by omega)
    · simp only [List.map_cons, List.map_nil]
      rw [show (h.firstpos + h.size) % 128 = h.lastpos from hring.symm]
      rw [getD_set_self _ _ _ _ (by omega)]
  · dsimp only
    rw [if_pos hlt]

theorem add_absent_full (h : HistState) (ids : Nat) (hwf : HistWF h)
    (hfind : vf_find_id_buff_adv_hist3 h ids = 65535) (hfull : h.size = 128) :
    histToList (vf_add_buff_adv_hist3 h ids) = (histToList h).tail ++ [⟨ids, 10⟩] ∧
      (vf_add_buff_adv_hist3 h ids).size = 128 := by
  obtain ⟨hlen, hf, hl, hs, hring⟩ := hwf
  have hlast : h.lastpos = h.firstpos := by omega
  have hr1 : List.range 128 = List.range 127 ++ [127] := by
    rw [show (128 : Nat) = 127 + 1 from rfl, List.range_succ]
  have hr2 : List.range 128 = 0 :: (List.range 127).map Nat.succ := by
    rw [show (128 : Nat) = 127 + 1 from rfl, List.range_succ_eq_map]
  have htail : (histToList h).tail =
      (List.range 127).map (fun k => h.entries.getD ((h.firstpos + 1 + k) % 128) ⟨0, 0⟩) := by
    unfold histToList entryAt
    rw [hfull, hr2, List.map_cons, List.tail_cons, List.map_map]
    refine List.map_congr_left (fun k _ => ?_)
    simp only [Function.comp_apply]
    congr 1
    omega
  rw [add_absent_eq h ids hfind, htail]
  constructor
  · unfold histToList entryAt
    dsimp only
    rw [if_neg (by omega), if_neg (by omega : ¬ h.size < 128)]
    rw [hfull, hr1, List.map_append]
    congr 1
    · refine List.map_congr_left (fun k hk => ?_)
      rw [List.mem_range] at hk
      have hidx2 : ((if h.lastpos + 1 = 128 then 0 else h.lastpos + 1) + k) % 128 =
          (h.firstpos + 1 + k) % 128 := by split_ifs <;> omega
      rw [hidx2, getD_set_ne _ _ _ _ _ (by omega)]
    · have hidx : ((if h.lastpos + 1 = 128 then 0 else h.lastpos + 1) + 127) % 128 =
          h.lastpos := by split_ifs <;> omega
      simp only [List.map_cons, List.map_nil, hidx]
      rw [getD_set_self _ _ _ _ (by omega)]
  · dsimp only
    rw [if_neg (by omega : ¬ h.size < 128), hfull]

theorem histWF_foldl (h : HistState) (l : List Nat) (hwf : HistWF h) :
    HistWF (l.foldl vf_add_buff_adv_hist3 h) := by
  induction l generalizing h with
  | nil => exact hwf
  | cons a t ih => exact ih _ (histWF_add _ _ hwf)

/-- C4: History Cache insert (`vf_add_buff_adv_hist3`) is a no-op when the
identity is already present; otherwise it appends the identity (with TTL 10)
to the logical window; when the cache already holds 128 entries it evicts
exactly the logically oldest entry; and under any sequence of inserts the
size never exceeds 128. -/
theorem C4_history_insert (h : HistState) (ids : Nat) (hwf : HistWF h) :
    (vf_find_id_buff_adv_hist3 h ids ≠ 65535 → vf_add_buff_adv_hist3 h ids = h) ∧
    (vf_find_id_buff_adv_hist3 h ids = 65535 → h.size < 128 →
      histToList (vf_add_buff_adv_hist3 h ids) = histToList h ++ [⟨ids, 10⟩] ∧
        (vf_add_buff_adv_hist3 h ids).size = h.size + 1) ∧
    (vf_find_id_buff_adv_hist3 h ids = 65535 → h.size = 128 →
      histToList (vf_add_buff_adv_hist3 h ids) = (histToList h).tail ++ [⟨ids, 10⟩] ∧
        (vf_add_buff_adv_hist3 h ids).size = 128) ∧
    (∀ l : List Nat, (l.foldl vf_add_buff_adv_hist3 h).size ≤ 128) := by
  refine ⟨add_present_eq h ids, fun hf hlt => add_absent_notfull h ids hwf hf hlt,
    fun hf hfull => add_absent_full h ids hwf hf hfull, fun l => (histWF_foldl h l hwf).2.2.2.1⟩

/-- An initially empty history cache, as the zero-initialized C globals. -/
def histW : HistState := ⟨List.replicate 128 ⟨0, 0⟩, 0, 0, 0⟩

theorem C4_history_insert_witness :
    histToList (vf_add_buff_adv_hist3 histW 7) = histToList histW ++ [⟨7, 10⟩] ∧
      (vf_add_buff_adv_hist3 histW 7).size = 1 := by
  have hwf : HistWF histW := by
    refine ⟨by simp [histW], by decide, by decide, by decide, by decide⟩
  exact (C4_history_insert histW 7 hwf).2.1 (by decide) (by decide)

/-- The C loop `for(i=lo;i<lo+n;i++) if(TTL>0) TTL--;` of
`vf_refresh_history_buff_callback` (phase 1, per index range). -/
def decRange (entries : List HistEntry) (lo n : Nat) : List HistEntry :=
  match n with
  | 0 => entries
  | n + 1 =>
      let e := entries.getD lo ⟨0, 0⟩
      decRange (if e.TTL > 0 then entries.set lo ⟨e.id, e.TTL - 1⟩ else entries) (lo + 1) n

/-- Value of the loop counter after `for(i=lo;i<lo+n;i++) if(TTL==0) break;`. -/
def scanZeroAux (entries : List HistEntry) (lo : Nat) : Nat → Nat
  | 0 => lo
  | n + 1 => if (entries.getD lo ⟨0, 0⟩).TTL = 0 then lo else scanZeroAux entries (lo + 1) n

/-- The scan `for(i=lo;i<hi;i++) if(TTL==0) break;` returning final `i`. -/
def scanZero (entries : List HistEntry) (lo hi : Nat) : Nat :=
  scanZeroAux entries lo (hi - lo)

/-- The compaction loop `for(j;j<j+n;j++){ if(TTL[j]!=0) e[i++]=e[j]; else count++; }`
carrying (entries, write index i, count). -/
def compactRange (st : List HistEntry × Nat × Nat) (j n : Nat) : List HistEntry × Nat × Nat :=
  match n with
  | 0 => st
  | n + 1 =>
      let e := st.1.getD j ⟨0, 0⟩
      let st' := if e.TTL ≠ 0 then (st.1.set st.2.1 e, st.2.1 + 1, st.2.2)
                 else (st.1, st.2.1, st.2.2 + 1)
      compactRange st' (j + 1) n

/-- Same loop but with the trailing `if(i>=128) i=0;` wrap of the write index
(second compaction loop of the wrapped-window branch). -/
def compactRangeWrap (st : List HistEntry × Nat × Nat) (j n : Nat) :
    List HistEntry × Nat × Nat :=
  match n with
  | 0 => st
  | n + 1 =>
      let e := st.1.getD j ⟨0, 0⟩
      let st' := if e.TTL ≠ 0 then (st.1.set st.2.1 e, st.2.1 + 1, st.2.2)
                 else (st.1, st.2.1, st.2.2 + 1)
      let st'' := if st'.2.1 ≥ 128 then (st'.1, 0, st'.2.2) else st'
      compactRangeWrap st'' (j + 1) n

/-- Embedding of `vf_refresh_history_buff_callback` (the history tick):
decrement every windowed TTL (guarded against underflow, as in the C), then
compact away zero-TTL entries.  In the wrapped-window branch, when the old
segment `[firstpos,128)` holds no zero-TTL entry, the C scans
`for(i=0;i<lastpos;i++){ if(g_buff_adv_hist[j].TTL==0) break; }` with the
loop reading the UNINITIALIZED variable `j`; the parameter `junk` makes that
indeterminate read explicit (the branch taken depends on whatever index the
stack happened to hold). -/
def vf_refresh_history_buff_callback (junk : Nat) (h : HistState) : HistState :=
  if h.size = 0 then h
  else
    let entries1 :=
      if h.firstpos < h.lastpos then decRange h.entries h.firstpos (h.lastpos - h.firstpos)
      else decRange (decRange h.entries h.firstpos (128 - h.firstpos)) 0 h.lastpos
    if h.firstpos < h.lastpos then
      let i0 := scanZero entries1 h.firstpos h.lastpos
      if i0 ≠ h.lastpos then
        let r := compactRange (entries1, i0, 1) (i0 + 1) (h.lastpos - (i0 + 1))
        { h with entries := r.1, lastpos := r.2.1, size := sub8 h.size r.2.2 }
      else { h with entries := entries1 }
    else
      let i0 := scanZero entries1 h.firstpos 128
      if i0 ≠ 128 then
        let r1 := compactRange (entries1, i0, 1) (i0 + 1) (128 - (i0 + 1))
        let r := compactRangeWrap r1 0 h.lastpos
        { h with entries := r.1, lastpos := r.2.1, size := sub8 h.size r.2.2 }
      else
        let i1 := if (entries1.getD junk ⟨0, 0⟩).TTL = 0 then 0 else h.lastpos
        if i1 ≠ h.lastpos then
          let r := compactRange (entries1, i1, 1) (i1 + 1) (h.lastpos - (i1 + 1))
          { h with entries := r.1, lastpos := r.2.1, size := sub8 h.size r.2.2 }
        else { h with entries := entries1 }

/-- A reachable wrapped-window history state: two live entries, id 100 (TTL 5)
at slot 127 and id 200 (TTL 5) at slot 0; window first=127, last=1, size=2.
All dead slots are zero-initialized, as the C globals are at boot. -/
def histC5 : HistState :=
  ⟨((List.replicate 128 (⟨0, 0⟩ : HistEntry)).set 127 ⟨100, 5⟩).set 0 ⟨200, 5⟩, 127, 1, 2⟩

/-- C5 (code bug): on `histC5`, whose two live entries both have nonzero TTL
after the decrement (5 → 4), the tick must remove nothing; but when the
uninitialized loop index `j` (here `junk = 3`) lands on a dead zero-TTL slot,
the buggy third compaction branch truncates the window at 0, removing the
live entry id 200 whose TTL is 4, leaving size 1.  With `junk = 127` (a slot
whose TTL is nonzero) the same tick keeps both entries: the result of the
tick depends on an uninitialized read. -/
theorem C5_history_tick_bug :
    (entryAt histC5 0).id = 200 ∧ (entryAt histC5 0).TTL = 5 ∧
    (entryAt histC5 127).id = 100 ∧ (entryAt histC5 127).TTL = 5 ∧
    (vf_refresh_history_buff_callback 3 histC5).size = 1 ∧
    vf_find_id_buff_adv_hist3 (vf_refresh_history_buff_callback 3 histC5) 200 = 65535 ∧
    histToList (vf_refresh_history_buff_callback 3 histC5) = [⟨100, 4⟩] ∧
    (vf_refresh_history_buff_callback 127 histC5).size = 2 := by
  decide

/-- One 32-byte block of `g_userdata`; the fields are the block's byte
offsets: 0 = free/used flag (0 free, 0xFF used), 1 = next-block index
(0xFF null), 2 = previous-block index, 3 = remaining broadcast budget,
4 = stored size byte, and the broadcast data region from offset 5.
`vf_add_packet_to_buffer3` writes exactly `userdata->size` payload bytes and
sets offset 4 to `size+1`, so all in-bounds reads see the stored list. -/
structure Block where
  b0 : Nat
  b1 : Nat
  b2 : Nat
  b3 : Nat
  b4 : Nat
  payload : List Nat
deriving DecidableEq, Repr

/-- A zero-initialized (free) block, as the C globals are at boot. -/
def freeBlock : Block := ⟨0, 0, 0, 0, 0, []⟩

/-- The block-pool globals of main.c: the 16 blocks of `g_userdata` together
with `g_userdata_firstpos`, `g_userdata_lastpos`, `g_userdata_currpos` and
`g_userdata.size` (which counts used blocks). -/
structure PoolState where
  blocks : List Block
  firstpos : Nat
  lastpos : Nat
  currpos : Nat
  size : Nat
deriving DecidableEq, Repr

/-- Block read `g_userdata.p_data[i*32 .. ]`. -/
def blockAt (p : PoolState) (i : Nat) : Block := p.blocks.getD i freeBlock

/-- Block write. -/
def setBlock (p : PoolState) (i : Nat) (b : Block) : PoolState :=
  { p with blocks := p.blocks.set i b }

/-- The whole mutable relay state: block pool plus history cache. -/
structure Sys where
  pool : PoolState
  hist : HistState
deriving DecidableEq, Repr

/-- Identity word `0x00AABBCC` built from three bytes (source, dest, packet
id), as `((uint32)a<<16)+((uint32)b<<8)+(uint32)c`. -/
def mkIds (a b c : Nat) : Nat := a * 65536 + b * 256 + c

/-- Identity of a stored block, read from payload bytes 0..2 (block byte
offsets 5..7), as at the top of `vf_delete_block_buffer3`. -/
def blockIds (b : Block) : Nat :=
  mkIds (b.payload.getD 0 0) (b.payload.getD 1 0) (b.payload.getD 2 0)

/-- Embedding of `vf_delete_block_buffer3`: unlink the block at `currpos`
from the doubly linked chain (branching on single / first / last / middle
exactly as the C does), mark it free, and, when `cond` is true, add its
identity to the history cache. -/
def vf_delete_block_buffer3 (s : Sys) (cond : Bool) : Sys :=
  let p := s.pool
  let pos1 := p.currpos
  let ids := blockIds (blockAt p pos1)
  if p.size = 0 then s
  else
    let p' :=
      if p.size = 1 then
        { setBlock p pos1 { blockAt p pos1 with b0 := 0, b1 := 255, b2 := 255 } with
          firstpos := 0, currpos := 0, lastpos := 0, size := 0 }
      else if pos1 = p.firstpos then
        let nextpos := (blockAt p pos1).b1
        let p1 := setBlock p pos1 { blockAt p pos1 with b0 := 0, b1 := 255, b2 := 255 }
        let p2 := setBlock p1 nextpos { blockAt p1 nextpos with b2 := 255 }
        { p2 with firstpos := nextpos, currpos := nextpos, size := p.size - 1 }
      else if pos1 = p.lastpos then
        let prepos := (blockAt p pos1).b2
        let p1 := setBlock p pos1 { blockAt p pos1 with b0 := 0, b1 := 255, b2 := 255 }
        let p2 := setBlock p1 prepos { blockAt p1 prepos with b1 := 255 }
        { p2 with lastpos := prepos, currpos := p.firstpos, size := p.size - 1 }
      else
        let nextpos := (blockAt p pos1).b1
        let prepos := (blockAt p pos1).b2
        let p1 := setBlock p pos1 { blockAt p pos1 with b0 := 0, b1 := 255, b2 := 255 }
        let p2 := setBlock p1 nextpos { blockAt p1 nextpos with b2 := prepos }
        let p3 := setBlock p2 prepos { blockAt p2 prepos with b1 := nextpos }
        { p3 with currpos := nextpos, size := p.size - 1 }
    let s' : Sys := { s with pool := p' }
    if cond then { s' with hist := vf_add_buff_adv_hist3 s'.hist ids } else s'

/-- The scan `for(i=0;i<n;i++) if(p_data[i*32]==0) break;` of
`vf_add_packet_to_buffer3`: first free block index. -/
def findFreeIdx (blocks : List Block) (i n : Nat) : Option Nat :=
  match n with
  | 0 => none
  | n + 1 => if (blocks.getD i freeBlock).b0 = 0 then some i else findFreeIdx blocks (i + 1) n

/-- Embedding of `vf_add_packet_to_buffer3`: admit a broadcast record into
the block pool.  Returns the new state and the C error code (0 success,
1 buffer full). -/
def vf_add_packet_to_buffer3 (s : Sys) (data : List Nat) : Sys × Nat :=
  let p := s.pool
  if p.size < MAX_USERDATA_BUFFER_BLOCK then
    match findFreeIdx p.blocks 0 MAX_USERDATA_BUFFER_BLOCK with
    | none => (s, 1)
    | some pos =>
        let p1 :=
          if p.size = 0 then
            { setBlock p pos { blockAt p pos with b1 := 255, b2 := 255 } with
              currpos := pos, lastpos := pos, firstpos := pos }
          else
            let pa := setBlock p p.lastpos { blockAt p p.lastpos with b1 := pos }
            let pb := setBlock pa pos { blockAt pa pos with b2 := p.lastpos, b1 := 255 }
            { pb with lastpos := pos }
        let p2 := setBlock p1 pos { blockAt p1 pos with
            b0 := 255, b3 := 2, b4 := (data.length + 1) % 256, payload := data }
        ({ s with pool := { p2 with size := p2.size + 1 } }, 0)
  else (s, 1)

/-- Unsigned in-place byte decrement with wraparound: the C `--x` on a
`uint8_t`. -/
def dec8 (x : Nat) : Nat := (x + 255) % 256

/-- Hop-count bump performed on the relay copy: `relay_data[5]++`, i.e. byte
3 of the copied broadcast data, reduced mod 256. -/
def bumpHop (l : List Nat) : List Nat := l.set 3 ((l.getD 3 0 + 1) % 256)

/-- The relay payload built by `vf_relay_adv_data3` from the block at the
cursor: `[relay_size, 0xFF]` followed by `relay_size-1` copied payload bytes
with the hop count incremented. -/
def relayPayload (b : Block) : List Nat :=
  b.b4 :: 255 :: bumpHop (b.payload.take (b.b4 - 1))

/-- The `while(g_userdata.size>0)` loop body of `vf_relay_adv_data3`, with
fuel: zero-size blocks at the cursor are deleted (not migrated) and the loop
retries; otherwise one relay payload is emitted, the block's remaining
budget is decremented, and the block is either migrated to history (budget
exhausted) or the cursor advances round-robin.  Returns the new state and
the emitted (cursor position, relay payload), if any. -/
def relayLoop : Nat → Sys → Sys × Option (Nat × List Nat)
  | 0, s => (s, none)
  | fuel + 1, s =>
    if s.pool.size > 0 then
      if (blockAt s.pool s.pool.currpos).b4 = 0 then
        relayLoop fuel (vf_delete_block_buffer3 s false)
      else
        let pos := s.pool.currpos
        let b := blockAt s.pool pos
        let out := relayPayload b
        let b3' := dec8 b.b3
        let s1 : Sys := { s with pool := setBlock s.pool pos { b with b3 := b3' } }
        if b3' = 0 then
          (vf_delete_block_buffer3 s1 true, some (pos, out))
        else
          let p := s1.pool
          let curr' := if p.currpos = p.lastpos then p.firstpos else (blockAt p p.currpos).b1
          ({ s1 with pool := { p with currpos := curr' } }, some (pos, out))
    else (s, none)

/-- Embedding of `vf_relay_adv_data3` (one scheduler tick).  The loop
terminates because every deletion decreases `size`; `size` itself is enough
fuel. -/
def vf_relay_adv_data3 (s : Sys) : Sys × Option (Nat × List Nat) :=
  relayLoop s.pool.size s

/-- Embedding of `vf_check_source`: byte 0 of the broadcast data equals this
node's CLUSTER_ID. -/
def vf_check_source (data : List Nat) : Bool := data.getD 0 0 = CLUSTER_ID

/-- Embedding of `vf_check_destination`: byte 1 equals CLUSTER_ID. -/
def vf_check_destination (data : List Nat) : Bool := data.getD 1 0 = CLUSTER_ID

/-- Embedding of `vf_validate_relay_packet3`: look the incoming identity up
in the history cache, then in the block pool; 65535 (0xFFFF) means "new
packet".  Two faithful oddities of the C are kept: (1) when the identity is
found in the history cache the function returns `i+8000` where `i` is an
UNINITIALIZED local (never assigned the find result) — `junk` makes that
read explicit, reduced as the `uint16_t` return; (2) the pool scan's
do-while loop body ends in `return pos` / `return 0xFFFF`, so only the block
at `firstpos` is ever compared and the loop's advance is dead code. -/
def vf_validate_relay_packet3 (junk : Nat) (s : Sys) (data : List Nat) : Nat :=
  let ids := mkIds (data.getD 0 0) (data.getD 1 0) (data.getD 2 0)
  if vf_find_id_buff_adv_hist3 s.hist ids ≠ 65535 then (junk + 8000) % 65536
  else if s.pool.size = 0 then 65535
  else
    let pos := s.pool.firstpos
    if blockIds (blockAt s.pool pos) = ids then pos else 65535

/-- Embedding of `vf_process_adv_command3`: deliver a broadcast addressed to
this node to the phone (modelled by the returned Bool) and record its
identity in the history cache, unless it validates as a duplicate. -/
def vf_process_adv_command3 (junk : Nat) (s : Sys) (data : List Nat) : Sys × Bool :=
  let ids := mkIds (data.getD 0 0) (data.getD 1 0) (data.getD 2 0)
  if vf_validate_relay_packet3 junk s data = 65535 then
    ({ s with hist := vf_add_buff_adv_hist3 s.hist ids }, true)
  else (s, false)

/-- The ingest-classifier chain of `on_adv_report` for a received
cluster-head broadcast (main.c lines 816-838): self-echo discard, then
deliver-to-self, then dedup-check and pool insertion for transit records.
The Bool is true when the payload was delivered to the application. -/
def ingestClassifier (junk : Nat) (s : Sys) (data : List Nat) : Sys × Bool :=
  if vf_check_source data then (s, false)
  else if vf_check_destination data then vf_process_adv_command3 junk s data
  else if vf_validate_relay_packet3 junk s data = 65535 then
    ((vf_add_packet_to_buffer3 s data).1, false)
  else (s, false)

/-- State projection of one relay-scheduler tick. -/
def tickState (s : Sys) : Sys := (vf_relay_adv_data3 s).1

/-- The boot state: all 16 pool blocks and all 128 history slots
zero-initialized, all cursors and sizes 0. -/
def sys0 : Sys := ⟨⟨List.replicate 16 freeBlock, 0, 0, 0, 0⟩, histW⟩

/-- A transit record from node 1 to node 2, packet id 3, hop count 0. -/
def dataA : List Nat := [1, 2, 3, 0]

/-- A transit record from node 1 to node 2, packet id 4, hop count 0. -/
def dataB : List Nat := [1, 2, 4, 0]

/-- The state after ingesting `dataA` then `dataB` from the boot state. -/
def sysAB : Sys := (ingestClassifier 0 (ingestClassifier 0 sys0 dataA).1 dataB).1

/-- The state after then re-ingesting `dataB` (a duplicate of a live pool
entry that is not at `firstpos`). -/
def sysABB : Sys := (ingestClassifier 0 sysAB dataB).1

/-- C1 (code bug): in `sysAB`, identity (1,2,4) is live in the block pool
(slot 1) and absent from the history cache, yet re-delivering the same
payload is NOT discarded: the classifier performs a fresh pool insertion
(size 2 → 3, slot 2 holding the same identity).  The pool lookup of
`vf_validate_relay_packet3` only ever compares the block at `firstpos`
(its scan loop ends in an unconditional return), contradicting its own
doc comment ("compare with current advertising buffer"). -/
theorem C1_duplicate_reinserted :
    (blockAt sysAB.pool 1).b0 ≠ 0 ∧ blockIds (blockAt sysAB.pool 1) = mkIds 1 2 4 ∧
    vf_find_id_buff_adv_hist3 sysAB.hist (mkIds 1 2 4) = 65535 ∧
    sysAB.pool.size = 2 ∧
    vf_validate_relay_packet3 0 sysAB dataB = 65535 ∧
    sysABB.pool.size = 3 ∧
    (blockAt sysABB.pool 2).b0 ≠ 0 ∧ blockIds (blockAt sysABB.pool 2) = mkIds 1 2 4 := by
  decide

/-- The state after five scheduler ticks from `sysABB`. -/
def sysC3 : Sys := tickState (tickState (tickState (tickState (tickState sysABB))))

/-- C3 (code bug): after the duplicate insertion of C1 and five scheduler
ticks, the first copy of identity (1,2,4) has exhausted its budget and been
migrated to the history cache while the second copy is still a live pool
block: the identity is simultaneously in the Block Pool and the History
Cache, violating the claimed invariant. -/
theorem C3_identity_in_pool_and_history :
    vf_find_id_buff_adv_hist3 sysC3.hist (mkIds 1 2 4) ≠ 65535 ∧
    (blockAt sysC3.pool 2).b0 ≠ 0 ∧ blockIds (blockAt sysC3.pool 2) = mkIds 1 2 4 := by
  decide

/-- C8: a received broadcast whose source byte equals CLUSTER_ID is
discarded by the ingest classifier: the state is unchanged (no pool
insertion, nothing queued for relay) and nothing is delivered to the
application. -/
theorem C8_self_echo_discard (junk : Nat) (s : Sys) (data : List Nat)
    (h : data.getD 0 0 = CLUSTER_ID) :
    ingestClassifier junk s data = (s, false) := by
  have hb : vf_check_source data = true := by
    unfold vf_check_source
    rw [h]
    simp
  simp [ingestClassifier, hb]

theorem C8_self_echo_discard_witness :
    ingestClassifier 0 sys0 [5, 2, 9, 0] = (sys0, false) :=
  C8_self_echo_discard 0 sys0 [5, 2, 9, 0] (by decide)

/-- The struct_thingy_data_type of main.c. -/
structure ThingyData where
  local_id : Nat
  link_state : Nat
  button : Nat
  temperature : Nat
  pressure : Nat
  humidity : Nat
deriving DecidableEq, Repr

/-- The broadcast record built by `vf_adv_thingy_data`: bytes 0..5 are
source CLUSTER_ID, destination SINK_ID, sequence byte `g_packetID`, hop
count 0, link state and local id; the switch then appends sensor bytes.
The switch compares `link_state` against AGG_NODE_LINK_CONNECTED /
_DISCONNECTED / _DATA_UPDATE, constants declared in app_aggregator.h which
is not part of src/, so they are passed in as `cCON cDIS cUPD`; when none
matches the C leaves `idata.size` uninitialized and the fall-through is
modelled as the bare 6-byte header. -/
def thingyIdata (cCON cDIS cUPD : Nat) (d : ThingyData) (pid : Nat) : List Nat :=
  let base := [CLUSTER_ID, SINK_ID, pid, 0, d.link_state, d.local_id]
  if d.link_state = cCON then
    base ++ [18, 18, 0, 1, 2, 3, 0, 120, 0]
  else if d.link_state = cDIS then base
  else if d.link_state = cUPD then
    base ++ [d.temperature / 256 % 256, d.temperature % 256,
      d.pressure / 16777216 % 256, d.pressure / 65536 % 256, d.pressure / 256 % 256,
      d.pressure % 256, d.humidity / 256 % 256, d.humidity % 256, d.button]
  else base

/-- Embedding of `vf_adv_thingy_data`: originate a local relay record and
admit it to the block pool; `g_packetID++` is the post-incremented `uint8_t`
sequence counter, threaded explicitly as `pid`. -/
def vf_adv_thingy_data (cCON cDIS cUPD : Nat) (d : ThingyData) (s : Sys) (pid : Nat) :
    Sys × Nat :=
  ((vf_add_packet_to_buffer3 s (thingyIdata cCON cDIS cUPD d pid)).1, (pid + 1) % 256)

/-- A sequence of local-event submissions. -/
def submitSeq (cCON cDIS cUPD : Nat) (ds : List ThingyData) (sp : Sys × Nat) : Sys × Nat :=
  ds.foldl (fun sp d => vf_adv_thingy_data cCON cDIS cUPD d sp.1 sp.2) sp

theorem submitSeq_pid (cCON cDIS cUPD : Nat) (ds : List ThingyData) (sp : Sys × Nat)
    (h : sp.2 < 256) :
    (submitSeq cCON cDIS cUPD ds sp).2 = (sp.2 + ds.length) % 256 := by
  induction ds generalizing sp with
  | nil => simp [submitSeq]; omega
  | cons d t ih =>
      have h2 : (vf_adv_thingy_data cCON cDIS cUPD d sp.1 sp.2).2 = (sp.2 + 1) % 256 := rfl
      have hlt : (sp.2 + 1) % 256 < 256 := Nat.mod_lt _ (by omega)
      calc (submitSeq cCON cDIS cUPD (d :: t) sp).2
          = (submitSeq cCON cDIS cUPD t (vf_adv_thingy_data cCON cDIS cUPD d sp.1 sp.2)).2 := rfl
        _ = ((sp.2 + 1) % 256 + t.length) % 256 := by
              rw [ih _ (by rw [h2]; exact hlt), h2]
        _ = (sp.2 + (d :: t).length) % 256 := by
              rw [Nat.mod_add_mod]
              simp [Nat.add_assoc, Nat.add_comm 1 t.length]

theorem thingyIdata_take3 (cCON cDIS cUPD : Nat) (d : ThingyData) (pid : Nat) :
    (thingyIdata cCON cDIS cUPD d pid).take 3 = [CLUSTER_ID, SINK_ID, pid] := by
  unfold thingyIdata
  split_ifs <;> rfl

/-- C10: the sequence byte of locally originated records is the `uint8_t`
counter `g_packetID`, incremented once per submission, so it wraps modulo
256: after any further 256 submissions the newly originated record carries
the same identity (source, dest, sequence) as the earlier one, while within
any window of fewer than 256 submissions local identities are distinct. -/
theorem C10_sequence_id_wraps (cCON cDIS cUPD : Nat) (s0 : Sys) (pid0 : Nat)
    (h0 : pid0 < 256) (pre mid : List ThingyData) (hmid : mid.length = 256)
    (d d' : ThingyData) :
    ((thingyIdata cCON cDIS cUPD d'
        (submitSeq cCON cDIS cUPD (pre ++ mid) (s0, pid0)).2).take 3 =
      (thingyIdata cCON cDIS cUPD d
        (submitSeq cCON cDIS cUPD pre (s0, pid0)).2).take 3) ∧
    (∀ k, 0 < k → k < 256 → ∀ mid' : List ThingyData, mid'.length = k →
      ∀ d'' : ThingyData,
      (thingyIdata cCON cDIS cUPD d''
          (submitSeq cCON cDIS cUPD (pre ++ mid') (s0, pid0)).2).take 3 ≠
        (thingyIdata cCON cDIS cUPD d
          (submitSeq cCON cDIS cUPD pre (s0, pid0)).2).take 3) := by
  constructor
  · rw [thingyIdata_take3, thingyIdata_take3,
      submitSeq_pid _ _ _ _ _ (by simpa using h0),
      submitSeq_pid _ _ _ _ _ (by simpa using h0)]
    simp only [List.length_append, hmid, List.cons.injEq, and_true, true_and]
    omega
  · intro k hk0 hk mid' hlen d''
    rw [thingyIdata_take3, thingyIdata_take3,
      submitSeq_pid _ _ _ _ _ (by simpa using h0),
      submitSeq_pid _ _ _ _ _ (by simpa using h0)]
    simp only [List.length_append, hlen, ne_eq, List.cons.injEq, and_true, true_and]
    omega

/-- A local data-update event. -/
def td0 : ThingyData := ⟨0, 3, 0, 0, 0, 0⟩

theorem C10_sequence_id_wraps_witness :
    (thingyIdata 1 2 3 td0
        (submitSeq 1 2 3 ([] ++ List.replicate 256 td0) (sys0, 0)).2).take 3 =
      (thingyIdata 1 2 3 td0 (submitSeq 1 2 3 [] (sys0, 0)).2).take 3 :=
  (C10_sequence_id_wraps 1 2 3 sys0 0 (by decide) [] (List.replicate 256 td0)
    (List.length_replicate 256 td0) td0 td0).1

/-- Number of used pool slots (slots whose flag byte is nonzero). -/
def countUsed (p : PoolState) : Nat :=
  (List.range 16).countP (fun i => decide ((blockAt p i).b0 ≠ 0))

theorem countUsed_eq_16_iff (p : PoolState) :
    countUsed p = 16 ↔ ∀ i < 16, (blockAt p i).b0 ≠ 0 := by
  unfold countUsed
  have h := List.countP_eq_length (p := fun i => decide ((blockAt p i).b0 ≠ 0))
    (l := List.range 16)
  simp only [List.length_range] at h
  rw [h]
  constructor
  · intro hall i hi
    have := hall i (by simpa using hi)
    simpa using this
  · intro hall i hi
    rw [List.mem_range] at hi
    simpa using hall i hi

theorem countUsed_le (p : PoolState) : countUsed p ≤ 16 := by
  unfold countUsed
  calc (List.range 16).countP (fun i => decide ((blockAt p i).b0 ≠ 0))
      ≤ (List.range 16).length := List.countP_le_length _
  _ = 16 := by simp

theorem findFreeIdx_none_iff (blocks : List Block) : ∀ n i,
    (findFreeIdx blocks i n = none ↔
      ∀ k, i ≤ k → k < i + n → (blocks.getD k freeBlock).b0 ≠ 0) := by
  intro n
  induction n with
  | zero => intro i; simp [findFreeIdx]; omega
  | succ n ih =>
      intro i
      unfold findFreeIdx
      by_cases hfree : (blocks.getD i freeBlock).b0 = 0
      · simp only [hfree, if_pos rfl, if_true]
        constructor
        · intro h; exact absurd h (by simp)
        · intro h; exact absurd hfree (h i (le_refl i) (by omega))
      · rw [if_neg hfree, ih (i + 1)]
        constructor
        · intro h k hk1 hk2
          rcases Nat.eq_or_lt_of_le hk1 with heq | hlt
          · rw [← heq]; exact hfree
          · exact h k hlt (by omega)
        · intro h k hk1 hk2
          exact h k (by omega) (by omega)

theorem findFreeIdx_some_spec (blocks : List Block) : ∀ n i pos,
    findFreeIdx blocks i n = some pos →
      i ≤ pos ∧ pos < i + n ∧ (blocks.getD pos freeBlock).b0 = 0 ∧
        ∀ k, i ≤ k → k < pos → (blocks.getD k freeBlock).b0 ≠ 0 := by
  intro n
  induction n with
  | zero => intro i pos h; exact absurd h (by simp [findFreeIdx])
  | succ n ih =>
      intro i pos h
      unfold findFreeIdx at h
      by_cases hfree : (blocks.getD i freeBlock).b0 = 0
      · rw [if_pos hfree] at h
        obtain rfl : i = pos := by simpa using h
        exact ⟨le_refl _, by omega, hfree, fun k hk1 hk2 => by omega⟩
      · rw [if_neg hfree] at h
        obtain ⟨h1, h2, h3, h4⟩ := ih (i + 1) pos h
        refine ⟨by omega, by omega, h3, fun k hk1 hk2 => ?_⟩
        rcases Nat.eq_or_lt_of_le hk1 with heq | hlt
        · rw [← heq]; exact hfree
        · exact h4 k hlt hk2

/-- C6: block-pool admission.  Under the pool bookkeeping invariants
(`size` counts used slots, `lastpos` points at a used slot when nonempty),
`vf_add_packet_to_buffer3` fails with the Full error code 1 exactly when all
16 slots are used, leaving the state untouched on failure; on success it
picks the first free slot, marks it used with remaining-broadcast budget 2
and the stored record, appends it at the tail of the ordered list (updating
`lastpos`, and `firstpos`/`currpos` exactly when the pool was empty) and
leaves every other slot (except the old tail's next-pointer) and the history
cache unchanged. -/
theorem C6_pool_allocate (s : Sys) (data : List Nat)
    (hlen : s.pool.blocks.length = 16)
    (hcount : s.pool.size = countUsed s.pool)
    (hlast : s.pool.size ≠ 0 → s.pool.lastpos < 16 ∧ (blockAt s.pool s.pool.lastpos).b0 ≠ 0) :
    ((vf_add_packet_to_buffer3 s data).2 = 1 ↔ ∀ i < 16, (blockAt s.pool i).b0 ≠ 0) ∧
    ((vf_add_packet_to_buffer3 s data).2 = 1 → (vf_add_packet_to_buffer3 s data).1 = s) ∧
    ((vf_add_packet_to_buffer3 s data).2 = 0 →
      ∃ pos, pos < 16 ∧ (blockAt s.pool pos).b0 = 0 ∧
        (∀ k < pos, (blockAt s.pool k).b0 ≠ 0) ∧
        (vf_add_packet_to_buffer3 s data).1.pool.size = s.pool.size + 1 ∧
        (vf_add_packet_to_buffer3 s data).1.pool.lastpos = pos ∧
        blockAt (vf_add_packet_to_buffer3 s data).1.pool pos =
          ⟨255, 255, if s.pool.size = 0 then 255 else s.pool.lastpos, 2,
            (data.length + 1) % 256, data⟩ ∧
        (s.pool.size = 0 → (vf_add_packet_to_buffer3 s data).1.pool.firstpos = pos ∧
          (vf_add_packet_to_buffer3 s data).1.pool.currpos = pos) ∧
        (s.pool.size ≠ 0 → (vf_add_packet_to_buffer3 s data).1.pool.firstpos = s.pool.firstpos ∧
          (vf_add_packet_to_buffer3 s data).1.pool.currpos = s.pool.currpos ∧
          blockAt (vf_add_packet_to_buffer3 s data).1.pool s.pool.lastpos =
            { blockAt s.pool s.pool.lastpos with b1 := pos }) ∧
        (∀ q, q ≠ pos → q ≠ s.pool.lastpos →
          blockAt (vf_add_packet_to_buffer3 s data).1.pool q = blockAt s.pool q) ∧
        (vf_add_packet_to_buffer3 s data).1.hist = s.hist) := by
  by_cases hsz : s.pool.size < MAX_USERDATA_BUFFER_BLOCK
  · have hfree : ∃ i, i < 16 ∧ (blockAt s.pool i).b0 = 0 := by
      by_contra hno
      push_neg at hno
      have h16 : countUsed s.pool = 16 := (countUsed_eq_16_iff s.pool).mpr
        (fun i hi => hno i hi)
      simp only [MAX_USERDATA_BUFFER_BLOCK] at hsz
      omega
    obtain ⟨i0, hi0, hfree0⟩ := hfree
    obtain ⟨pos, hsome⟩ : ∃ pos, findFreeIdx s.pool.blocks 0 MAX_USERDATA_BUFFER_BLOCK
        = some pos := by
      rcases hh : findFreeIdx s.pool.blocks 0 MAX_USERDATA_BUFFER_BLOCK with _ | pos
      · rw [findFreeIdx_none_iff] at hh
        exact absurd hfree0
          (hh i0 (Nat.zero_le _) (by simpa [MAX_USERDATA_BUFFER_BLOCK] using hi0))
      · exact ⟨pos, rfl⟩
    obtain ⟨-, hposlt, hposfree, hposmin⟩ := findFreeIdx_some_spec s.pool.blocks _ _ _ hsome
    simp only [Nat.zero_add, MAX_USERDATA_BUFFER_BLOCK] at hposlt
    have herr : (vf_add_packet_to_buffer3 s data).2 = 0 := by
      unfold vf_add_packet_to_buffer3
      rw [if_pos hsz, hsome]
    refine ⟨⟨fun h1 => absurd (herr.symm.trans h1) (by decide),
        fun hall => absurd hposfree (hall pos hposlt)⟩,
      fun h1 => absurd (herr.symm.trans h1) (by decide), fun _ => ?_⟩
    refine ⟨pos, hposlt, hposfree, fun k hk => hposmin k (Nat.zero_le _) hk, ?_⟩
    unfold vf_add_packet_to_buffer3 setBlock blockAt
    rw [if_pos hsz, hsome]
    dsimp only
    by_cases h0 : s.pool.size = 0
    · rw [if_pos h0]
      dsimp only
      rw [if_pos h0]
      refine ⟨rfl, rfl, ?_, fun _ => ⟨rfl, rfl⟩, fun hne => absurd h0 hne, ?_, rfl⟩
      · rw [getD_set_self _ _ _ _ (by simpa [hlen] using hposlt),
          getD_set_self _ _ _ _ (by simpa [hlen] using hposlt)]
      · intro q hq1 _
        rw [getD_set_ne _ _ _ _ _ (Ne.symm hq1), getD_set_ne _ _ _ _ _ (Ne.symm hq1)]
    · rw [if_neg h0]
      dsimp only
      rw [if_neg h0]
      have hlastlt := (hlast h0).1
      have hlastused := (hlast h0).2
      have hpl : pos ≠ s.pool.lastpos := fun heq => hlastused (heq ▸ hposfree)
      refine ⟨rfl, rfl, ?_, fun h00 => absurd h00 h0, fun _ => ⟨rfl, rfl, ?_⟩, ?_, rfl⟩
      · rw [getD_set_self _ _ _ _ (by simpa [hlen] using hposlt),
          getD_set_self _ _ _ _ (by simpa [hlen] using hposlt)]
      · rw [getD_set_ne _ _ _ _ _ hpl, getD_set_ne _ _ _ _ _ hpl,
          getD_set_self _ _ _ _ (by simpa [hlen] using hlastlt)]
      · intro q hq1 hq2
        rw [getD_set_ne _ _ _ _ _ (Ne.symm hq1), getD_set_ne _ _ _ _ _ (Ne.symm hq1),
          getD_set_ne _ _ _ _ _ (Ne.symm hq2)]
  · have herr1 : (vf_add_packet_to_buffer3 s data).2 = 1 := by
      unfold vf_add_packet_to_buffer3
      rw [if_neg hsz]
    have hid : (vf_add_packet_to_buffer3 s data).1 = s := by
      unfold vf_add_packet_to_buffer3
      rw [if_neg hsz]
    have hall : ∀ i < 16, (blockAt s.pool i).b0 ≠ 0 := by
      have h16 : countUsed s.pool = 16 := by
        have := countUsed_le s.pool
        simp only [MAX_USERDATA_BUFFER_BLOCK] at hsz
        omega
      exact (countUsed_eq_16_iff s.pool).mp h16
    exact ⟨⟨fun _ => hall, fun _ => herr1⟩, fun _ => hid,
      fun h0 => absurd (herr1.symm.trans h0) (by decide)⟩

theorem C6_pool_allocate_witness :
    (vf_add_packet_to_buffer3 sys0 dataA).2 = 1 ↔
      ∀ i < 16, (blockAt sys0.pool i).b0 ≠ 0 :=
  (C6_pool_allocate sys0 dataA (by decide) (by decide)
    (fun h => absurd rfl h)).1
theorem getD_set {α : Type} (l : List α) (i q : Nat) (a d : α) :
    (l.set i a).getD q d = if q = i ∧ i < l.length then a else l.getD q d := by
  by_cases h1 : q = i
  · subst h1
    by_cases h2 : q < l.length
    · rw [getD_set_self _ _ _ _ h2, if_pos ⟨rfl, h2⟩]
    · have hge := Nat.le_of_not_lt h2
      rw [if_neg (fun hc => h2 hc.2), List.getD_eq_default _ _ (by simpa using hge),
        List.getD_eq_default _ _ hge]
  · rw [if_neg (fun hc => h1 hc.1), getD_set_ne _ _ _ _ _ (Ne.symm h1)]

theorem blockAt_setBlock (p : PoolState) (i q : Nat) (b : Block) :
    blockAt (setBlock p i b) q = if q = i ∧ i < p.blocks.length then b else blockAt p q := by
  unfold blockAt setBlock
  exact getD_set _ _ _ _ _

/-- Every slot of `bs'` agrees with `bs` on the b3/b4/payload fields. -/
def SameB34 (bs bs' : List Block) : Prop :=
  ∀ q, ((bs'.getD q freeBlock).b3 = (bs.getD q freeBlock).b3) ∧
    ((bs'.getD q freeBlock).b4 = (bs.getD q freeBlock).b4) ∧
    ((bs'.getD q freeBlock).payload = (bs.getD q freeBlock).payload)

theorem sameB34_refl (bs : List Block) : SameB34 bs bs := fun _ => ⟨rfl, rfl, rfl⟩

theorem sameB34_set (bs bs' : List Block) (i : Nat) (b : Block) (h : SameB34 bs bs')
    (h3 : b.b3 = (bs'.getD i freeBlock).b3) (h4 : b.b4 = (bs'.getD i freeBlock).b4)
    (hp : b.payload = (bs'.getD i freeBlock).payload) : SameB34 bs (bs'.set i b) := by
  intro q
  rw [getD_set]
  split_ifs with hq
  · obtain ⟨rfl, -⟩ := hq
    rw [h3, h4, hp]
    exact h q
  · exact h q

/-- Deleting a block never changes the b3/b4/payload fields of any slot:
every write of `vf_delete_block_buffer3` only touches bytes 0..2. -/
theorem delete_preserves_b34 (s : Sys) (cond : Bool) :
    SameB34 s.pool.blocks (vf_delete_block_buffer3 s cond).pool.blocks := by
  unfold vf_delete_block_buffer3 setBlock blockAt
  dsimp only
  split_ifs
  · exact sameB34_refl _
  · exact sameB34_set _ _ _ _ (sameB34_refl _) rfl rfl rfl
  · exact sameB34_set _ _ _ _
      (sameB34_set _ _ _ _ (sameB34_refl _) rfl rfl rfl) rfl rfl rfl
  · exact sameB34_set _ _ _ _
      (sameB34_set _ _ _ _ (sameB34_refl _) rfl rfl rfl) rfl rfl rfl
  · exact sameB34_set _ _ _ _ (sameB34_set _ _ _ _
      (sameB34_set _ _ _ _ (sameB34_refl _) rfl rfl rfl) rfl rfl rfl) rfl rfl rfl
  · exact sameB34_set _ _ _ _ (sameB34_refl _) rfl rfl rfl
  · exact sameB34_set _ _ _ _
      (sameB34_set _ _ _ _ (sameB34_refl _) rfl rfl rfl) rfl rfl rfl
  · exact sameB34_set _ _ _ _
      (sameB34_set _ _ _ _ (sameB34_refl _) rfl rfl rfl) rfl rfl rfl
  · exact sameB34_set _ _ _ _ (sameB34_set _ _ _ _
      (sameB34_set _ _ _ _ (sameB34_refl _) rfl rfl rfl) rfl rfl rfl) rfl rfl rfl

theorem delete_preserves_blockAt (s : Sys) (cond : Bool) (q : Nat) :
    (blockAt (vf_delete_block_buffer3 s cond).pool q).b3 = (blockAt s.pool q).b3 ∧
    (blockAt (vf_delete_block_buffer3 s cond).pool q).b4 = (blockAt s.pool q).b4 ∧
    (blockAt (vf_delete_block_buffer3 s cond).pool q).payload = (blockAt s.pool q).payload :=
  delete_preserves_b34 s cond q

/-- The state after the C statement `--g_userdata.p_data[pos*32+3]` of the
relay tick: the cursor block's budget byte decremented in place. -/
def decCurr (s : Sys) : Sys :=
  { s with pool := (setBlock s.pool s.pool.currpos
      { blockAt s.pool s.pool.currpos with b3 := dec8 (blockAt s.pool s.pool.currpos).b3 }) }

/-- The round-robin cursor advance of the relay tick: wrap from `lastpos` to
`firstpos`, otherwise follow the next-block pointer. -/
def advCurr (p : PoolState) : Nat :=
  if p.currpos = p.lastpos then p.firstpos else (blockAt p p.currpos).b1

/-- Unfolding of one productive relay-tick step: when the pool is nonempty
and the cursor block has a nonzero size byte, the tick emits the cursor
block's relay payload, decrements its budget, and either migrates it (budget
exhausted) or advances the cursor. -/
theorem tick_emit_eq (s : Sys) (hsz : s.pool.size > 0)
    (hb4 : (blockAt s.pool s.pool.currpos).b4 ≠ 0) :
    vf_relay_adv_data3 s =
      (if dec8 (blockAt s.pool s.pool.currpos).b3 = 0 then
        (vf_delete_block_buffer3 (decCurr s) true,
          some (s.pool.currpos, relayPayload (blockAt s.pool s.pool.currpos)))
      else
        ({ decCurr s with
            pool := { (decCurr s).pool with currpos := advCurr (decCurr s).pool } },
          some (s.pool.currpos, relayPayload (blockAt s.pool s.pool.currpos)))) := by
  unfold vf_relay_adv_data3
  rcases hke : s.pool.size with _ | n
  · omega
  · rw [show relayLoop (n + 1) s = _ from rfl]
    unfold relayLoop
    rw [if_pos (by omega : s.pool.size > 0), if_neg hb4]
    exact rfl

theorem dec8_eq_sub_one (x : Nat) (h1 : 1 ≤ x) (h2 : x ≤ 255) : dec8 x = x - 1 := by
  unfold dec8
  omega

/-- C7: frame effect of a transmitting scheduler tick.  When the cursor
block is a coherent record (size byte = payload length + 1, payload holding
at least the four header bytes so the hop count exists, budget a live byte
value), the tick hands the transport exactly the stored record prefixed by
its size byte and the manufacturer-data type 0xFF, with byte 3 (the hop
count) incremented modulo 256; the stored block's remaining-broadcast byte
is decremented by one and its size byte and payload bytes are unchanged. -/
theorem C7_tick_frame_effect (s : Sys) (hsz : s.pool.size > 0)
    (hlen : s.pool.blocks.length = 16) (hcur : s.pool.currpos < 16)
    (hb4 : (blockAt s.pool s.pool.currpos).b4 =
      (blockAt s.pool s.pool.currpos).payload.length + 1)
    (hpl : 4 ≤ (blockAt s.pool s.pool.currpos).payload.length)
    (hb3lo : 1 ≤ (blockAt s.pool s.pool.currpos).b3)
    (hb3hi : (blockAt s.pool s.pool.currpos).b3 ≤ 255) :
    (vf_relay_adv_data3 s).2 = some (s.pool.currpos,
      (blockAt s.pool s.pool.currpos).b4 :: 255 ::
        bumpHop (blockAt s.pool s.pool.currpos).payload) ∧
    (blockAt (vf_relay_adv_data3 s).1.pool s.pool.currpos).b3 =
      (blockAt s.pool s.pool.currpos).b3 - 1 ∧
    (blockAt (vf_relay_adv_data3 s).1.pool s.pool.currpos).b4 =
      (blockAt s.pool s.pool.currpos).b4 ∧
    (blockAt (vf_relay_adv_data3 s).1.pool s.pool.currpos).payload =
      (blockAt s.pool s.pool.currpos).payload := by
  have hb4ne : (blockAt s.pool s.pool.currpos).b4 ≠ 0 := by omega
  have hpay : relayPayload (blockAt s.pool s.pool.currpos) =
      (blockAt s.pool s.pool.currpos).b4 :: 255 ::
        bumpHop (blockAt s.pool s.pool.currpos).payload := by
    unfold relayPayload
    rw [hb4, Nat.add_sub_cancel, List.take_length]
  have hd8 := dec8_eq_sub_one _ hb3lo hb3hi
  have hmid : blockAt (decCurr s).pool s.pool.currpos =
      { blockAt s.pool s.pool.currpos with
        b3 := dec8 (blockAt s.pool s.pool.currpos).b3 } := by
    unfold decCurr
    dsimp only
    rw [blockAt_setBlock, if_pos ⟨rfl, by omega⟩]
  rw [tick_emit_eq s hsz hb4ne]
  by_cases h0 : dec8 (blockAt s.pool s.pool.currpos).b3 = 0
  · rw [if_pos h0]
    refine ⟨by rw [hpay], ?_⟩
    obtain ⟨g3, g4, gp⟩ := delete_preserves_blockAt (decCurr s) true s.pool.currpos
    rw [g3, g4, gp, hmid, ← hd8]
    exact ⟨rfl, rfl, rfl⟩
  · rw [if_neg h0]
    refine ⟨by rw [hpay], ?_⟩
    rw [show blockAt { (decCurr s).pool with currpos := advCurr (decCurr s).pool }
        s.pool.currpos = blockAt (decCurr s).pool s.pool.currpos from rfl, hmid, ← hd8]
    exact ⟨rfl, rfl, rfl⟩

theorem C7_tick_frame_effect_witness :
    (vf_relay_adv_data3 (ingestClassifier 0 sys0 dataA).1).2 =
      some ((ingestClassifier 0 sys0 dataA).1.pool.currpos,
        (blockAt (ingestClassifier 0 sys0 dataA).1.pool
            (ingestClassifier 0 sys0 dataA).1.pool.currpos).b4 :: 255 ::
          bumpHop (blockAt (ingestClassifier 0 sys0 dataA).1.pool
            (ingestClassifier 0 sys0 dataA).1.pool.currpos).payload) :=
  (C7_tick_frame_effect (ingestClassifier 0 sys0 dataA).1 (by decide) (by decide)
    (by decide) (by decide) (by decide) (by decide) (by decide)).1

/-- tx_request_t of ble_thingy_uis_c.c. -/
inductive TxRequestType
  | readReq
  | writeReq
deriving DecidableEq, Repr

/-- tx_message_t: connection handle, request type, target attribute handle
and (for writes) the value bytes. -/
structure TxMessage where
  conn_handle : Nat
  type : TxRequestType
  handle : Nat
  value : List Nat
deriving DecidableEq, Repr

/-- The module-level TX ring of ble_thingy_uis_c.c: `m_tx_buffer` (8 slots,
TX_BUFFER_SIZE), `m_tx_insert_index` and `m_tx_index`; both indices are kept
masked below 8 since every C use masks with TX_BUFFER_MASK right after the
increment. -/
structure TxState where
  buffer : List TxMessage
  insertIndex : Nat
  txIndex : Nat
deriving DecidableEq, Repr

/-- A zero message (the zero-initialized C array element). -/
def emptyTxMessage : TxMessage := ⟨0, TxRequestType.readReq, 0, []⟩

/-- Embedding of `tx_buffer_process`: when a message is pending, issue the
one at `m_tx_index` and advance the index only on NRF_SUCCESS; `issueOk`
models the SoftDevice read/write call's result (anything else leaves the
head in place to be attempted again). -/
def tx_buffer_process (issueOk : Bool) (t : TxState) : TxState :=
  if t.txIndex ≠ t.insertIndex then
    if issueOk then { t with txIndex := (t.txIndex + 1) % 8 } else t
  else t

/-- Embedding of `cccd_configure`: write a CCCD write-request into the slot
at `m_tx_insert_index` (unconditionally), advance the insert index mod 8,
call `tx_buffer_process`, and return NRF_SUCCESS (0).  There is no capacity
check of any kind.  `BLE_GATT_HVX_NOTIFICATION = 1` is the vendor-stack
constant used when `enable` is set. -/
def cccd_configure (issueOk : Bool) (conn_handle handle_cccd : Nat) (enable : Bool)
    (t : TxState) : TxState × Nat :=
  let cccd_val := if enable then 1 else 0
  let msg : TxMessage := ⟨conn_handle, TxRequestType.writeReq, handle_cccd,
    [cccd_val % 256, cccd_val / 256]⟩
  let t1 := { t with buffer := t.buffer.set t.insertIndex msg,
                     insertIndex := (t.insertIndex + 1) % 8 }
  (tx_buffer_process issueOk t1, 0)

/-- Embedding of `ble_thingy_uis_led_status_send` (valid-handle path): write
an LED write-request holding the first `length` LED-state bytes into the
insert slot, advance mod 8, process, return NRF_SUCCESS (0). -/
def ble_thingy_uis_led_status_send (issueOk : Bool) (conn_handle led_handle : Nat)
    (led_state : List Nat) (length : Nat) (t : TxState) : TxState × Nat :=
  let msg : TxMessage := ⟨conn_handle, TxRequestType.writeReq, led_handle,
    led_state.take length⟩
  let t1 := { t with buffer := t.buffer.set t.insertIndex msg,
                     insertIndex := (t.insertIndex + 1) % 8 }
  (tx_buffer_process issueOk t1, 0)

/-- Number of pending (inserted but not yet successfully issued) requests,
as the ring distance from `m_tx_index` to `m_tx_insert_index`. -/
def pendingCount (t : TxState) : Nat := (t.insertIndex + 8 - t.txIndex) % 8

/-- The zero-initialized TX ring. -/
def tx0 : TxState := ⟨List.replicate 8 emptyTxMessage, 0, 0⟩

/-- The ring after `n` CCCD enqueues (request `k` targets handle `k`) with
the transport busy throughout (no issue ever succeeds). -/
def txAfter : Nat → TxState
  | 0 => tx0
  | n + 1 => (cccd_configure false 0 (n + 1) true (txAfter n)).1

/-- C9 (counterexample): the retry-queue enqueue paths never report Full.
Starting from the empty ring with the transport busy, eight enqueues all
return NRF_SUCCESS; after the seventh the ring holds 7 pending requests and
the eighth wraps the insert index onto the issue index, so the pending
count collapses to 0 with nothing ever issued (`m_tx_index` still 0) — the
eight stored requests are silently abandoned; a ninth enqueue then
overwrites the slot still holding the never-issued first request.  This
falsifies the claim that enqueue returns Full at capacity, that no pending
entry is overwritten, and that insertion order is preserved for issuance. -/
theorem C9_enqueue_never_full :
    (∀ k < 9, (cccd_configure false 0 (k + 1) true (txAfter k)).2 = 0) ∧
    pendingCount (txAfter 7) = 7 ∧
    pendingCount (txAfter 8) = 0 ∧
    (txAfter 8).txIndex = 0 ∧
    (txAfter 8).buffer.getD 0 emptyTxMessage =
      ⟨0, TxRequestType.writeReq, 1, [1, 0]⟩ ∧
    (txAfter 9).buffer.getD 0 emptyTxMessage =
      ⟨0, TxRequestType.writeReq, 9, [1, 0]⟩ := by
  decide

/-- C9 (amended): enqueue always accepts and returns NRF_SUCCESS — Full is
never reported; the pending count (ring distance insert − issue mod 8)
never exceeds 7; and an enqueue performed while 7 requests are pending wraps
the insert index onto the issue index, resetting the pending count to 0 and
abandoning the stored requests instead of preserving them FIFO. -/
theorem C9_enqueue_always_accepts (issueOk : Bool) (ch hd : Nat) (en : Bool)
    (ls : List Nat) (len : Nat) (t : TxState) :
    (cccd_configure issueOk ch hd en t).2 = 0 ∧
    (ble_thingy_uis_led_status_send issueOk ch hd ls len t).2 = 0 ∧
    pendingCount (cccd_configure issueOk ch hd en t).1 ≤ 7 ∧
    (t.insertIndex < 8 → t.txIndex < 8 → pendingCount t = 7 →
      pendingCount (cccd_configure issueOk ch hd en t).1 = 0) := by
  refine ⟨rfl, rfl, ?_, ?_⟩
  · unfold pendingCount cccd_configure tx_buffer_process
    dsimp only
    split_ifs <;> (try dsimp only) <;> omega
  · intro h1 h2 h3
    unfold pendingCount at h3 ⊢
    unfold cccd_configure tx_buffer_process
    dsimp only
    split_ifs <;> (try dsimp only) <;> omega

/-- A ring holding 7 pending requests. -/
def txSeven : TxState := ⟨List.replicate 8 emptyTxMessage, 7, 0⟩

theorem C9_enqueue_always_accepts_witness :
    pendingCount txSeven = 7 ∧ pendingCount (cccd_configure false 0 1 true txSeven).1 = 0 :=
  ⟨by decide, (C9_enqueue_always_accepts false 0 1 true [] 0 txSeven).2.2.2
    (by decide) (by decide) (by decide)⟩

/-- The adjacency encoded by the pool's intrusive link bytes: `b` follows
`a` (a's next pointer is b, b's previous pointer is a). -/
def Adj (p : PoolState) (a b : Nat) : Prop :=
  (blockAt p a).b1 = b ∧ (blockAt p b).b2 = a

/-- `L` is the ordered list of used slots the pool's link bytes and cursors
encode: the used slots are exactly the members of `L`, `firstpos`/`lastpos`
are its ends, `size` its length, and consecutive members are doubly
linked. -/
structure ChainRep (p : PoolState) (L : List Nat) : Prop where
  nodup : L.Nodup
  bound : ∀ q ∈ L, q < 16
  blen : p.blocks.length = 16
  len : L.length = p.size
  firstOk : ∀ x ∈ L.head?, p.firstpos = x
  lastOk : ∀ x ∈ L.getLast?, p.lastpos = x
  chain : L.Chain' (Adj p)
  usedIff : ∀ q, q < 16 → ((blockAt p q).b0 ≠ 0 ↔ q ∈ L)

/-- Budget and size sanity of every chained block: remaining broadcasts a
live byte value, size byte nonzero. -/
def GoodBlocks (p : PoolState) (L : List Nat) : Prop :=
  ∀ q ∈ L, 1 ≤ (blockAt p q).b3 ∧ (blockAt p q).b3 ≤ 255 ∧ (blockAt p q).b4 ≠ 0

theorem blockAt_two_sets (p : PoolState) (i1 i2 q : Nat) (v1 v2 : Block)
    (hq1 : q ≠ i1) (hq2 : q ≠ i2) :
    blockAt (setBlock (setBlock p i1 v1) i2 v2) q = blockAt p q := by
  rw [blockAt_setBlock, if_neg (fun hcc => hq2 hcc.1), blockAt_setBlock,
    if_neg (fun hcc => hq1 hcc.1)]

theorem blockAt_setBlock_self (p : PoolState) (i : Nat) (v : Block)
    (h : i < p.blocks.length) : blockAt (setBlock p i v) i = v := by
  rw [blockAt_setBlock, if_pos ⟨rfl, h⟩]

theorem blockAt_setBlock_ne (p : PoolState) (i q : Nat) (v : Block) (hq : q ≠ i) :
    blockAt (setBlock p i v) q = blockAt p q := by
  rw [blockAt_setBlock, if_neg (fun hcc => hq hcc.1)]

theorem delete_single (s : Sys) (cond : Bool) (h1 : s.pool.size = 1) :
    (vf_delete_block_buffer3 s cond).pool.blocks =
      s.pool.blocks.set s.pool.currpos
        { blockAt s.pool s.pool.currpos with b0 := 0, b1 := 255, b2 := 255 } ∧
    (vf_delete_block_buffer3 s cond).pool.firstpos = 0 ∧
    (vf_delete_block_buffer3 s cond).pool.lastpos = 0 ∧
    (vf_delete_block_buffer3 s cond).pool.currpos = 0 ∧
    (vf_delete_block_buffer3 s cond).pool.size = 0 ∧
    (vf_delete_block_buffer3 s cond).hist =
      (if cond then vf_add_buff_adv_hist3 s.hist (blockIds (blockAt s.pool s.pool.currpos))
       else s.hist) := by
  unfold vf_delete_block_buffer3 setBlock
  dsimp only
  rw [if_neg (by omega), if_pos h1]
  split_ifs
  · exact ⟨rfl, rfl, rfl, rfl, rfl, rfl⟩
  · exact ⟨rfl, rfl, rfl, rfl, rfl, rfl⟩

theorem delete_first (s : Sys) (cond : Bool) (h1 : s.pool.size ≠ 0) (h2 : s.pool.size ≠ 1)
    (h3 : s.pool.currpos = s.pool.firstpos)
    (hnx : (blockAt s.pool s.pool.currpos).b1 ≠ s.pool.currpos) :
    (vf_delete_block_buffer3 s cond).pool.blocks =
      ((s.pool.blocks.set s.pool.currpos
          { blockAt s.pool s.pool.currpos with b0 := 0, b1 := 255, b2 := 255 }).set
        (blockAt s.pool s.pool.currpos).b1
        { blockAt s.pool (blockAt s.pool s.pool.currpos).b1 with b2 := 255 }) ∧
    (vf_delete_block_buffer3 s cond).pool.firstpos = (blockAt s.pool s.pool.currpos).b1 ∧
    (vf_delete_block_buffer3 s cond).pool.lastpos = s.pool.lastpos ∧
    (vf_delete_block_buffer3 s cond).pool.currpos = (blockAt s.pool s.pool.currpos).b1 ∧
    (vf_delete_block_buffer3 s cond).pool.size = s.pool.size - 1 ∧
    (vf_delete_block_buffer3 s cond).hist =
      (if cond then vf_add_buff_adv_hist3 s.hist (blockIds (blockAt s.pool s.pool.currpos))
       else s.hist) := by
  have hb : blockAt (setBlock s.pool s.pool.currpos
      { blockAt s.pool s.pool.currpos with b0 := 0, b1 := 255, b2 := 255 })
      (blockAt s.pool s.pool.currpos).b1 =
      blockAt s.pool (blockAt s.pool s.pool.currpos).b1 :=
    blockAt_setBlock_ne _ _ _ _ hnx
  unfold vf_delete_block_buffer3
  dsimp only
  rw [if_neg (by omega), if_neg h2, if_pos h3, hb]
  split_ifs
  · exact ⟨rfl, rfl, rfl, rfl, rfl, rfl⟩
  · exact ⟨rfl, rfl, rfl, rfl, rfl, rfl⟩

theorem delete_last (s : Sys) (cond : Bool) (h1 : s.pool.size ≠ 0) (h2 : s.pool.size ≠ 1)
    (h3 : s.pool.currpos ≠ s.pool.firstpos) (h4 : s.pool.currpos = s.pool.lastpos)
    (hpr : (blockAt s.pool s.pool.currpos).b2 ≠ s.pool.currpos) :
    (vf_delete_block_buffer3 s cond).pool.blocks =
      ((s.pool.blocks.set s.pool.currpos
          { blockAt s.pool s.pool.currpos with b0 := 0, b1 := 255, b2 := 255 }).set
        (blockAt s.pool s.pool.currpos).b2
        { blockAt s.pool (blockAt s.pool s.pool.currpos).b2 with b1 := 255 }) ∧
    (vf_delete_block_buffer3 s cond).pool.firstpos = s.pool.firstpos ∧
    (vf_delete_block_buffer3 s cond).pool.lastpos = (blockAt s.pool s.pool.currpos).b2 ∧
    (vf_delete_block_buffer3 s cond).pool.currpos = s.pool.firstpos ∧
    (vf_delete_block_buffer3 s cond).pool.size = s.pool.size - 1 ∧
    (vf_delete_block_buffer3 s cond).hist =
      (if cond then vf_add_buff_adv_hist3 s.hist (blockIds (blockAt s.pool s.pool.currpos))
       else s.hist) := by
  have hb : blockAt (setBlock s.pool s.pool.currpos
      { blockAt s.pool s.pool.currpos with b0 := 0, b1 := 255, b2 := 255 })
      (blockAt s.pool s.pool.currpos).b2 =
      blockAt s.pool (blockAt s.pool s.pool.currpos).b2 :=
    blockAt_setBlock_ne _ _ _ _ hpr
  unfold vf_delete_block_buffer3
  dsimp only
  rw [if_neg (by omega), if_neg h2, if_neg h3, if_pos h4, hb]
  split_ifs
  · exact ⟨rfl, rfl, rfl, rfl, rfl, rfl⟩
  · exact ⟨rfl, rfl, rfl, rfl, rfl, rfl⟩

theorem delete_middle (s : Sys) (cond : Bool) (h1 : s.pool.size ≠ 0) (h2 : s.pool.size ≠ 1)
    (h3 : s.pool.currpos ≠ s.pool.firstpos) (h4 : s.pool.currpos ≠ s.pool.lastpos)
    (hnx : (blockAt s.pool s.pool.currpos).b1 ≠ s.pool.currpos)
    (hpr : (blockAt s.pool s.pool.currpos).b2 ≠ s.pool.currpos)
    (hnp : (blockAt s.pool s.pool.currpos).b2 ≠ (blockAt s.pool s.pool.currpos).b1) :
    (vf_delete_block_buffer3 s cond).pool.blocks =
      (((s.pool.blocks.set s.pool.currpos
          { blockAt s.pool s.pool.currpos with b0 := 0, b1 := 255, b2 := 255 }).set
        (blockAt s.pool s.pool.currpos).b1
        { blockAt s.pool (blockAt s.pool s.pool.currpos).b1 with
            b2 := (blockAt s.pool s.pool.currpos).b2 }).set
        (blockAt s.pool s.pool.currpos).b2
        { blockAt s.pool (blockAt s.pool s.pool.currpos).b2 with
            b1 := (blockAt s.pool s.pool.currpos).b1 }) ∧
    (vf_delete_block_buffer3 s cond).pool.firstpos = s.pool.firstpos ∧
    (vf_delete_block_buffer3 s cond).pool.lastpos = s.pool.lastpos ∧
    (vf_delete_block_buffer3 s cond).pool.currpos = (blockAt s.pool s.pool.currpos).b1 ∧
    (vf_delete_block_buffer3 s cond).pool.size = s.pool.size - 1 ∧
    (vf_delete_block_buffer3 s cond).hist =
      (if cond then vf_add_buff_adv_hist3 s.hist (blockIds (blockAt s.pool s.pool.currpos))
       else s.hist) := by
  have hb1 : blockAt (setBlock s.pool s.pool.currpos
      { blockAt s.pool s.pool.currpos with b0 := 0, b1 := 255, b2 := 255 })
      (blockAt s.pool s.pool.currpos).b1 =
      blockAt s.pool (blockAt s.pool s.pool.currpos).b1 :=
    blockAt_setBlock_ne _ _ _ _ hnx
  have hb2 : blockAt (setBlock (setBlock s.pool s.pool.currpos
      { blockAt s.pool s.pool.currpos with b0 := 0, b1 := 255, b2 := 255 })
      (blockAt s.pool s.pool.currpos).b1
      { blockAt s.pool (blockAt s.pool s.pool.currpos).b1 with
          b2 := (blockAt s.pool s.pool.currpos).b2 })
      (blockAt s.pool s.pool.currpos).b2 =
      blockAt s.pool (blockAt s.pool s.pool.currpos).b2 :=
    blockAt_two_sets _ _ _ _ _ _ hpr hnp
  unfold vf_delete_block_buffer3
  dsimp only
  rw [if_neg (by omega), if_neg h2, if_neg h3, if_neg h4, hb1, hb2]
  split_ifs
  · exact ⟨rfl, rfl, rfl, rfl, rfl, rfl⟩
  · exact ⟨rfl, rfl, rfl, rfl, rfl, rfl⟩

theorem chain'_adj_transfer (p p' : PoolState) (l : List Nat) (hnd : l.Nodup)
    (hch : l.Chain' (Adj p))
    (hb1 : ∀ x ∈ l, (∀ h : l ≠ [], x ≠ l.getLast h) →
      (blockAt p' x).b1 = (blockAt p x).b1)
    (hb2 : ∀ x ∈ l, (∀ h : l ≠ [], x ≠ l.head h) →
      (blockAt p' x).b2 = (blockAt p x).b2) :
    l.Chain' (Adj p') := by
  rw [List.chain'_iff_get] at hch ⊢
  intro i hi
  obtain ⟨ha, hb⟩ := hch i hi
  have hne : l ≠ [] := by
    rintro rfl
    simp at hi
  have hgl : ∀ h : l ≠ [], l.getLast h = l.get ⟨l.length - 1, by
      have := List.length_pos.mpr h
      omega⟩ := by
    intro h
    rw [List.getLast_eq_getElem]
    rfl
  have hhd : ∀ h : l ≠ [], l.head h = l.get ⟨0, List.length_pos.mpr h⟩ := by
    intro h
    rw [List.head_eq_getElem]
    rfl
  constructor
  · rw [hb1 _ (l.get_mem _ _) ?_]
    · exact ha
    · intro h hcontra
      rw [hgl h] at hcontra
      have h2 := (List.Nodup.get_inj_iff hnd).mp hcontra
      have h3 : i = l.length - 1 := congrArg Fin.val h2
      omega
  · rw [hb2 _ (l.get_mem _ _) ?_]
    · exact hb
    · intro h hcontra
      rw [hhd h] at hcontra
      have h2 := (List.Nodup.get_inj_iff hnd).mp hcontra
      have h3 : i + 1 = 0 := congrArg Fin.val h2
      omega

/-- The facts about `vf_delete_block_buffer3` that the scheduler induction
needs: the chain representation shrinks by the deleted cursor slot, the new
cursor is on the chain, and the deleted slot is marked free. -/
def DeleteOK (s : Sys) (cond : Bool) (L : List Nat) : Prop :=
  ChainRep (vf_delete_block_buffer3 s cond).pool (L.erase s.pool.currpos) ∧
  (L.erase s.pool.currpos ≠ [] →
    (vf_delete_block_buffer3 s cond).pool.currpos ∈ L.erase s.pool.currpos) ∧
  (blockAt (vf_delete_block_buffer3 s cond).pool s.pool.currpos).b0 = 0

theorem delete_chainRep_single (s : Sys) (cond : Bool)
    (hc : ChainRep s.pool [s.pool.currpos]) : DeleteOK s cond [s.pool.currpos] := by
  obtain ⟨hnd, hbound, hblen, hlen, hfirst, hlast, hchain, hused⟩ := hc
  have hposlt : s.pool.currpos < 16 := hbound _ (by simp)
  have h1 : s.pool.size = 1 := by simpa using hlen.symm
  obtain ⟨e1, e2, e3, e4, e5, e6⟩ := delete_single s cond h1
  have herase : ([s.pool.currpos].erase s.pool.currpos) = [] := by simp
  unfold DeleteOK
  rw [herase]
  have hpt : ∀ q, blockAt (vf_delete_block_buffer3 s cond).pool q =
      if q = s.pool.currpos then
        { blockAt s.pool s.pool.currpos with b0 := 0, b1 := 255, b2 := 255 }
      else blockAt s.pool q := by
    intro q
    unfold blockAt
    rw [e1, getD_set]
    by_cases hq : q = s.pool.currpos
    · rw [if_pos hq, if_pos ⟨hq, by omega⟩]
      exact rfl
    · rw [if_neg hq, if_neg (fun hcc => hq hcc.1)]
  refine ⟨⟨by simp, by simp, ?_, by simpa using e5.symm, by simp, by simp, by simp, ?_⟩,
    by simp, ?_⟩
  · rw [e1, List.length_set, hblen]
  · intro q hq
    rw [hpt q]
    by_cases hqq : q = s.pool.currpos
    · simp [hqq]
    · rw [if_neg hqq]
      have := hused q hq
      simp only [List.mem_singleton, hqq] at this
      simp [this]
  · rw [hpt _, if_pos rfl]

theorem delete_chainRep_first (s : Sys) (cond : Bool) (b : Nat) (l2 : List Nat)
    (hc : ChainRep s.pool (s.pool.currpos :: b :: l2)) :
    DeleteOK s cond (s.pool.currpos :: b :: l2) := by
  obtain ⟨hnd, hbound, hblen, hlen, hfirst, hlast, hchain, hused⟩ := hc
  have hposlt : s.pool.currpos < 16 := hbound _ (by simp)
  have hblt : b < 16 := hbound _ (by simp)
  have hpos_notmem : s.pool.currpos ∉ b :: l2 := (List.nodup_cons.mp hnd).1
  have hbne : b ≠ s.pool.currpos := fun h => hpos_notmem (by simp [h])
  obtain ⟨hAdj, hch2⟩ := List.chain'_cons.mp hchain
  have hb1pos : (blockAt s.pool s.pool.currpos).b1 = b := hAdj.1
  have h3 : s.pool.currpos = s.pool.firstpos := (hfirst _ (by simp)).symm
  have hsz : s.pool.size = l2.length + 2 := by
    have := hlen.symm
    simpa using this
  obtain ⟨e1, e2, e3, e4, e5, e6⟩ := delete_first s cond (by omega) (by omega) h3
    (by rw [hb1pos]; exact hbne)
  have herase : ((s.pool.currpos :: b :: l2).erase s.pool.currpos) = b :: l2 :=
    List.erase_cons_head _ _
  unfold DeleteOK
  rw [herase]
  have hpt : ∀ q, q ≠ s.pool.currpos → q ≠ b →
      blockAt (vf_delete_block_buffer3 s cond).pool q = blockAt s.pool q := by
    intro q h1 h2
    unfold blockAt
    rw [e1, hb1pos, getD_set_ne _ _ _ _ _ (Ne.symm h2), getD_set_ne _ _ _ _ _ (Ne.symm h1)]
  have hptb : blockAt (vf_delete_block_buffer3 s cond).pool b =
      { blockAt s.pool b with b2 := 255 } := by
    unfold blockAt
    rw [e1, hb1pos, getD_set_self _ _ _ _ (by rw [List.length_set, hblen]; exact hblt)]
    exact rfl
  have hptpos : (blockAt (vf_delete_block_buffer3 s cond).pool s.pool.currpos).b0 = 0 := by
    unfold blockAt
    rw [e1, hb1pos, getD_set_ne _ _ _ _ _ hbne,
      getD_set_self _ _ _ _ (by rw [hblen]; exact hposlt)]
  refine ⟨⟨(List.nodup_cons.mp hnd).2, fun q hq => hbound q (List.mem_cons_of_mem _ hq),
    ?_, ?_, ?_, ?_, ?_, ?_⟩, ?_, hptpos⟩
  · rw [e1, List.length_set, List.length_set, hblen]
  · rw [e5]
    simp only [List.length_cons]
    omega
  · intro x hx
    simp only [List.head?_cons, Option.mem_some_iff] at hx
    rw [e2, hb1pos, hx]
  · intro x hx
    rw [e3]
    exact hlast x (by rw [List.getLast?_cons_cons]; exact hx)
  · refine chain'_adj_transfer s.pool _ _ (List.nodup_cons.mp hnd).2 hch2 ?_ ?_
    · intro x hx _
      by_cases hxb : x = b
      · rw [hxb, hptb]
      · rw [hpt x (fun hcc => hpos_notmem (hcc ▸ hx)) hxb]
    · intro x hx hxh
      have hxb : x ≠ b := by
        intro hcc
        exact hxh (by simp) (by rw [hcc]; rfl)
      rw [hpt x (fun hcc => hpos_notmem (hcc ▸ hx)) hxb]
  · intro q hq
    by_cases hq1 : q = s.pool.currpos
    · rw [hq1, hptpos]
      simp [hpos_notmem]
    · by_cases hq2 : q = b
      · rw [hq2, hptb]
        have hbu := (hused b hblt).mpr (by simp)
        constructor
        · intro _
          simp
        · intro _
          exact hbu
      · rw [hpt q hq1 hq2]
        have := hused q hq
        simp only [List.mem_cons, hq1, hq2, false_or] at this ⊢
        exact this
  · intro _
    rw [e4, hb1pos]
    simp

theorem delete_chainRep_last (s : Sys) (cond : Bool) (l1 : List Nat) (hl1 : l1 ≠ [])
    (hc : ChainRep s.pool (l1 ++ [s.pool.currpos])) :
    DeleteOK s cond (l1 ++ [s.pool.currpos]) := by
  obtain ⟨hnd, hbound, hblen, hlen, hfirst, hlast, hchain, hused⟩ := hc
  have hposlt : s.pool.currpos < 16 := hbound _ (by simp)
  have hposnotmem : s.pool.currpos ∉ l1 := fun hmem =>
    (List.disjoint_of_nodup_append hnd) hmem (by simp)
  have hndl1 : l1.Nodup := List.Nodup.of_append_left hnd
  obtain ⟨ch1, ch2, hjun⟩ := List.chain'_append.mp hchain
  have hglast : l1.getLast? = some (l1.getLast hl1) := List.getLast?_eq_getLast_of_ne_nil hl1
  have hj : Adj s.pool (l1.getLast hl1) s.pool.currpos :=
    hjun _ (by rw [hglast]; rfl) _ (by simp)
  have hprmem : l1.getLast hl1 ∈ l1 := List.getLast_mem hl1
  have hprlt : l1.getLast hl1 < 16 := hbound _ (List.mem_append_left _ hprmem)
  have hprne : l1.getLast hl1 ≠ s.pool.currpos := fun h => hposnotmem (h ▸ hprmem)
  have hb2pos : (blockAt s.pool s.pool.currpos).b2 = l1.getLast hl1 := hj.2
  obtain ⟨a, l1x, hl1eq⟩ := List.exists_cons_of_ne_nil hl1
  have hhead : (l1 ++ [s.pool.currpos]).head? = some a := by rw [hl1eq]; rfl
  have hamem : a ∈ l1 := by rw [hl1eq]; simp
  have hane : a ≠ s.pool.currpos := fun h => hposnotmem (h ▸ hamem)
  have h3 : s.pool.currpos ≠ s.pool.firstpos := by
    rw [hfirst a hhead]
    exact fun h => hane h.symm
  have h4 : s.pool.currpos = s.pool.lastpos := by
    rw [hlast s.pool.currpos (by rw [List.getLast?_concat]; rfl)]
  have hsz : s.pool.size = l1.length + 1 := by
    have := hlen.symm
    simpa using this
  have hl1pos : 0 < l1.length := List.length_pos.mpr hl1
  obtain ⟨e1, e2, e3, e4, e5, e6⟩ := delete_last s cond (by omega) (by omega) h3 h4
    (by rw [hb2pos]; exact hprne)
  have herase : ((l1 ++ [s.pool.currpos]).erase s.pool.currpos) = l1 := by
    rw [List.erase_append_right _ hposnotmem, List.erase_cons_head, List.append_nil]
  unfold DeleteOK
  rw [herase]
  have hpt : ∀ q, q ≠ s.pool.currpos → q ≠ l1.getLast hl1 →
      blockAt (vf_delete_block_buffer3 s cond).pool q = blockAt s.pool q := by
    intro q h1 h2
    unfold blockAt
    rw [e1, hb2pos, getD_set_ne _ _ _ _ _ (Ne.symm h2), getD_set_ne _ _ _ _ _ (Ne.symm h1)]
  have hptpr : blockAt (vf_delete_block_buffer3 s cond).pool (l1.getLast hl1) =
      { blockAt s.pool (l1.getLast hl1) with b1 := 255 } := by
    unfold blockAt
    rw [e1, hb2pos, getD_set_self _ _ _ _ (by rw [List.length_set, hblen]; exact hprlt)]
    exact rfl
  have hptpos : (blockAt (vf_delete_block_buffer3 s cond).pool s.pool.currpos).b0 = 0 := by
    unfold blockAt
    rw [e1, hb2pos, getD_set_ne _ _ _ _ _ hprne,
      getD_set_self _ _ _ _ (by rw [hblen]; exact hposlt)]
  refine ⟨⟨hndl1, fun q hq => hbound q (List.mem_append_left _ hq),
    ?_, ?_, ?_, ?_, ?_, ?_⟩, ?_, hptpos⟩
  · rw [e1, List.length_set, List.length_set, hblen]
  · rw [e5]
    omega
  · intro x hx
    rw [e2]
    refine hfirst x ?_
    rw [hhead]
    rw [hl1eq] at hx
    simpa using hx
  · intro x hx
    rw [hglast] at hx
    simp only [Option.mem_some_iff] at hx
    rw [e3, hb2pos, hx]
  · refine chain'_adj_transfer s.pool _ _ hndl1 ch1 ?_ ?_
    · intro x hx hxl
      rw [hpt x (fun h => hposnotmem (h ▸ hx)) (hxl hl1)]
    · intro x hx _
      by_cases hxp : x = l1.getLast hl1
      · rw [hxp, hptpr]
      · rw [hpt x (fun h => hposnotmem (h ▸ hx)) hxp]
  · intro q hq
    by_cases hq1 : q = s.pool.currpos
    · rw [hq1, hptpos]
      simp [hposnotmem]
    · by_cases hq2 : q = l1.getLast hl1
      · rw [hq2, hptpr]
        have hbu := (hused _ hprlt).mpr (List.mem_append_left _ hprmem)
        constructor
        · intro _
          exact hprmem
        · intro _
          exact hbu
      · rw [hpt q hq1 hq2]
        have := hused q hq
        rw [this]
        simp only [List.mem_append, List.mem_singleton, hq1, or_false]
  · intro _
    rw [e4, hfirst a hhead]
    exact hamem

theorem delete_chainRep_middle (s : Sys) (cond : Bool) (l1 l2 : List Nat)
    (hl1 : l1 ≠ []) (hl2 : l2 ≠ [])
    (hc : ChainRep s.pool (l1 ++ s.pool.currpos :: l2)) :
    DeleteOK s cond (l1 ++ s.pool.currpos :: l2) := by
  obtain ⟨hnd, hbound, hblen, hlen, hfirst, hlast, hchain, hused⟩ := hc
  have hposlt : s.pool.currpos < 16 := hbound _ (by simp)
  have hdisj := List.disjoint_of_nodup_append hnd
  have hposnotmem1 : s.pool.currpos ∉ l1 := fun hmem => hdisj hmem (by simp)
  have hnd2 : (s.pool.currpos :: l2).Nodup := List.Nodup.of_append_right hnd
  have hndl1 : l1.Nodup := List.Nodup.of_append_left hnd
  have hposnotmem2 : s.pool.currpos ∉ l2 := (List.nodup_cons.mp hnd2).1
  have hndl2 : l2.Nodup := (List.nodup_cons.mp hnd2).2
  obtain ⟨ch1, ch2, hjun⟩ := List.chain'_append.mp hchain
  have hglast : l1.getLast? = some (l1.getLast hl1) := List.getLast?_eq_getLast_of_ne_nil hl1
  have hj : Adj s.pool (l1.getLast hl1) s.pool.currpos :=
    hjun _ (by rw [hglast]; rfl) _ (by simp)
  have hprmem : l1.getLast hl1 ∈ l1 := List.getLast_mem hl1
  have hprlt : l1.getLast hl1 < 16 := hbound _ (List.mem_append_left _ hprmem)
  have hprne : l1.getLast hl1 ≠ s.pool.currpos := fun h => hposnotmem1 (h ▸ hprmem)
  have hb2pos : (blockAt s.pool s.pool.currpos).b2 = l1.getLast hl1 := hj.2
  obtain ⟨b, l2x, hl2eq⟩ := List.exists_cons_of_ne_nil hl2
  have hbmem : b ∈ l2 := by rw [hl2eq]; simp
  have hblt : b < 16 := hbound _ (List.mem_append_right _ (by simp [hbmem]))
  have hbne : b ≠ s.pool.currpos := fun h => hposnotmem2 (h ▸ hbmem)
  have hAdjpb : Adj s.pool s.pool.currpos b := by
    rw [hl2eq] at ch2
    exact (List.chain'_cons.mp ch2).1
  have hb1pos : (blockAt s.pool s.pool.currpos).b1 = b := hAdjpb.1
  have hprb : l1.getLast hl1 ≠ b := fun h => hdisj (h ▸ hprmem) (by simp [hbmem])
  obtain ⟨a, l1x, hl1eq⟩ := List.exists_cons_of_ne_nil hl1
  have hhead : (l1 ++ s.pool.currpos :: l2).head? = some a := by rw [hl1eq]; rfl
  have hamem : a ∈ l1 := by rw [hl1eq]; simp
  have hane : a ≠ s.pool.currpos := fun h => hposnotmem1 (h ▸ hamem)
  have h3 : s.pool.currpos ≠ s.pool.firstpos := by
    rw [hfirst a hhead]
    exact fun h => hane h.symm
  have hglast2 : l2.getLast? = some (l2.getLast hl2) := List.getLast?_eq_getLast_of_ne_nil hl2
  have hlmem : l2.getLast hl2 ∈ l2 := List.getLast_mem hl2
  have hlne : l2.getLast hl2 ≠ s.pool.currpos := fun h => hposnotmem2 (h ▸ hlmem)
  have h4 : s.pool.currpos ≠ s.pool.lastpos := by
    have hgl : (l1 ++ s.pool.currpos :: l2).getLast? = some (l2.getLast hl2) := by
      rw [List.getLast?_append_cons]
      rw [show (s.pool.currpos :: l2).getLast? = l2.getLast? from
        List.getLast?_append_of_ne_nil [s.pool.currpos] hl2, hglast2]
    rw [hlast _ hgl]
    exact fun h => hlne h.symm
  have hsz : s.pool.size = l1.length + l2.length + 1 := by
    have := hlen.symm
    simp at this
    omega
  have hl1pos : 0 < l1.length := List.length_pos.mpr hl1
  have hl2pos : 0 < l2.length := List.length_pos.mpr hl2
  obtain ⟨e1, e2, e3, e4, e5, e6⟩ := delete_middle s cond (by omega) (by omega) h3 h4
    (by rw [hb1pos]; exact hbne) (by rw [hb2pos]; exact hprne)
    (by rw [hb1pos, hb2pos]; exact hprb)
  have herase : ((l1 ++ s.pool.currpos :: l2).erase s.pool.currpos) = l1 ++ l2 := by
    rw [List.erase_append_right _ hposnotmem1, List.erase_cons_head]
  unfold DeleteOK
  rw [herase]
  have hpt : ∀ q, q ≠ s.pool.currpos → q ≠ b → q ≠ l1.getLast hl1 →
      blockAt (vf_delete_block_buffer3 s cond).pool q = blockAt s.pool q := by
    intro q h1 h2 h5
    unfold blockAt
    rw [e1, hb1pos, hb2pos, getD_set_ne _ _ _ _ _ (Ne.symm h5),
      getD_set_ne _ _ _ _ _ (Ne.symm h2), getD_set_ne _ _ _ _ _ (Ne.symm h1)]
  have hptb : blockAt (vf_delete_block_buffer3 s cond).pool b =
      { blockAt s.pool b with b2 := l1.getLast hl1 } := by
    unfold blockAt
    rw [e1, hb1pos, hb2pos, getD_set_ne _ _ _ _ _ hprb,
      getD_set_self _ _ _ _ (by rw [List.length_set, hblen]; exact hblt)]
    exact rfl
  have hptpr : blockAt (vf_delete_block_buffer3 s cond).pool (l1.getLast hl1) =
      { blockAt s.pool (l1.getLast hl1) with b1 := b } := by
    unfold blockAt
    rw [e1, hb1pos, hb2pos,
      getD_set_self _ _ _ _ (by rw [List.length_set, List.length_set, hblen]; exact hprlt)]
    exact rfl
  have hptpos : (blockAt (vf_delete_block_buffer3 s cond).pool s.pool.currpos).b0 = 0 := by
    unfold blockAt
    rw [e1, hb1pos, hb2pos, getD_set_ne _ _ _ _ _ hprne, getD_set_ne _ _ _ _ _ hbne,
      getD_set_self _ _ _ _ (by rw [hblen]; exact hposlt)]
  have hndJ : (l1 ++ l2).Nodup := by
    rw [List.nodup_append]
    exact ⟨hndl1, hndl2, fun x hx1 hx2 => hdisj hx1 (by simp [hx2])⟩
  refine ⟨⟨hndJ, ?_, ?_, ?_, ?_, ?_, ?_, ?_⟩, ?_, hptpos⟩
  · intro q hq
    rcases List.mem_append.mp hq with h | h
    · exact hbound q (List.mem_append_left _ h)
    · exact hbound q (List.mem_append_right _ (by simp [h]))
  · rw [e1, List.length_set, List.length_set, List.length_set, hblen]
  · rw [e5]
    simp only [List.length_append]
    omega
  · intro x hx
    rw [e2]
    refine hfirst x ?_
    rw [List.head?_append_of_ne_nil _ hl1] at hx ⊢
    exact hx
  · intro x hx
    rw [e3]
    refine hlast x ?_
    rw [List.getLast?_append_of_ne_nil _ hl2] at hx
    rw [List.getLast?_append_cons]
    rw [show (s.pool.currpos :: l2).getLast? = l2.getLast? from
      List.getLast?_append_of_ne_nil [s.pool.currpos] hl2]
    exact hx
  · refine List.chain'_append.mpr ⟨?_, ?_, ?_⟩
    · refine chain'_adj_transfer s.pool _ _ hndl1 ch1 ?_ ?_
      · intro x hx hxl
        have hxb : x ≠ b := fun h => hdisj (h ▸ hx) (by simp [hbmem])
        rw [hpt x (fun h => hposnotmem1 (h ▸ hx)) hxb (hxl hl1)]
      · intro x hx _
        by_cases hxp : x = l1.getLast hl1
        · rw [hxp, hptpr]
        · have hxb : x ≠ b := fun h => hdisj (h ▸ hx) (by simp [hbmem])
          rw [hpt x (fun h => hposnotmem1 (h ▸ hx)) hxb hxp]
    · have chl2 : List.Chain' (Adj s.pool) l2 := (List.chain'_cons'.mp ch2).2
      refine chain'_adj_transfer s.pool _ _ hndl2 chl2 ?_ ?_
      · intro x hx _
        have hxpr : x ≠ l1.getLast hl1 := fun h => hdisj (h ▸ hprmem) (by simp [hx])
        by_cases hxb : x = b
        · rw [hxb, hptb]
        · rw [hpt x (fun h => hposnotmem2 (h ▸ hx)) hxb hxpr]
      · intro x hx hxh
        have hxb : x ≠ b := by
          have hh1 : l2.head? = some (l2.head hl2) := List.head?_eq_head hl2
          have hh2 : l2.head? = some b := by rw [hl2eq]; rfl
          have hh3 : l2.head hl2 = b := by
            rw [hh1] at hh2
            exact Option.some.inj hh2
          rw [← hh3]
          exact hxh hl2
        have hxpr : x ≠ l1.getLast hl1 := fun h => hdisj (h ▸ hprmem) (by simp [hx])
        rw [hpt x (fun h => hposnotmem2 (h ▸ hx)) hxb hxpr]
    · intro x hx y hy
      rw [hglast] at hx
      simp only [Option.mem_some_iff] at hx
      rw [hl2eq] at hy
      simp only [List.head?_cons, Option.mem_some_iff] at hy
      subst hx
      subst hy
      constructor
      · rw [hptpr]
      · rw [hptb]
  · intro q hq
    by_cases hq1 : q = s.pool.currpos
    · rw [hq1, hptpos]
      simp only [ne_eq, not_true_eq_false, false_iff, List.mem_append]
      push_neg
      exact ⟨hposnotmem1, hposnotmem2⟩
    · have hmemiff : q ∈ l1 ++ s.pool.currpos :: l2 ↔ q ∈ l1 ++ l2 := by
        simp only [List.mem_append, List.mem_cons, hq1, false_or]
      by_cases hq2 : q = b
      · rw [hq2, hptb]
        have hbu := (hused b hblt).mpr (List.mem_append_right _ (by simp [hbmem]))
        constructor
        · intro _
          exact List.mem_append_right _ hbmem
        · intro _
          exact hbu
      · by_cases hq3 : q = l1.getLast hl1
        · rw [hq3, hptpr]
          have hbu := (hused _ hprlt).mpr (List.mem_append_left _ hprmem)
          constructor
          · intro _
            exact List.mem_append_left _ hprmem
          · intro _
            exact hbu
        · rw [hpt q hq1 hq2 hq3, ← hmemiff]
          exact hused q hq
  · intro _
    rw [e4, hb1pos]
    exact List.mem_append_right _ hbmem

theorem delete_chainRep (s : Sys) (cond : Bool) (L : List Nat)
    (hc : ChainRep s.pool L) (hcur : s.pool.currpos ∈ L) : DeleteOK s cond L := by
  obtain ⟨l1, l2, hL⟩ := List.append_of_mem hcur
  subst hL
  rcases l1 with _ | ⟨a, l1x⟩
  · rcases l2 with _ | ⟨b, l2x⟩
    · exact delete_chainRep_single s cond hc
    · exact delete_chainRep_first s cond b l2x hc
  · rcases l2 with _ | ⟨b, l2x⟩
    · exact delete_chainRep_last s cond (a :: l1x) (by simp) hc
    · exact delete_chainRep_middle s cond (a :: l1x) (b :: l2x) (by simp) (by simp) hc

theorem delete_hist (s : Sys) (cond : Bool) (hsz : s.pool.size ≠ 0) :
    (vf_delete_block_buffer3 s cond).hist =
      (if cond then vf_add_buff_adv_hist3 s.hist (blockIds (blockAt s.pool s.pool.currpos))
       else s.hist) := by
  unfold vf_delete_block_buffer3
  dsimp only
  rw [if_neg hsz]
  split_ifs <;> rfl

theorem goodBlocks_delete (s : Sys) (cond : Bool) (L : List Nat) (hnd : L.Nodup)
    (hg : ∀ q ∈ L, q ≠ s.pool.currpos →
      1 ≤ (blockAt s.pool q).b3 ∧ (blockAt s.pool q).b3 ≤ 255 ∧ (blockAt s.pool q).b4 ≠ 0) :
    GoodBlocks (vf_delete_block_buffer3 s cond).pool (L.erase s.pool.currpos) := by
  intro q hq
  obtain ⟨hqne, hqmem⟩ := (List.Nodup.mem_erase_iff hnd).mp hq
  obtain ⟨g3, g4, gp⟩ := delete_preserves_blockAt s cond q
  rw [g3, g4]
  exact hg q hqmem hqne

theorem chainRep_decCurr (s : Sys) (L : List Nat) (hc : ChainRep s.pool L) :
    ChainRep (decCurr s).pool L := by
  have hb012 : ∀ q, ((blockAt (decCurr s).pool q).b0 = (blockAt s.pool q).b0) ∧
      ((blockAt (decCurr s).pool q).b1 = (blockAt s.pool q).b1) ∧
      ((blockAt (decCurr s).pool q).b2 = (blockAt s.pool q).b2) := by
    intro q
    unfold decCurr
    dsimp only
    rw [blockAt_setBlock]
    split_ifs with h
    · obtain ⟨rfl, -⟩ := h
      exact ⟨rfl, rfl, rfl⟩
    · exact ⟨rfl, rfl, rfl⟩
  obtain ⟨hnd, hbound, hblen, hlen, hfirst, hlast, hchain, hused⟩ := hc
  refine ⟨hnd, hbound, ?_, hlen, hfirst, hlast, ?_, ?_⟩
  · show (s.pool.blocks.set _ _).length = 16
    rw [List.length_set, hblen]
  · refine chain'_adj_transfer s.pool _ _ hnd hchain ?_ ?_
    · intro x _ _
      exact (hb012 x).2.1
    · intro x _ _
      exact (hb012 x).2.2
  · intro q hq
    rw [(hb012 q).1]
    exact hused q hq

theorem advCurr_mem (p : PoolState) (L : List Nat) (hc : ChainRep p L)
    (hcur : p.currpos ∈ L) : advCurr p ∈ L := by
  unfold advCurr
  by_cases hb : p.currpos = p.lastpos
  · rw [if_pos hb]
    have hne : L ≠ [] := fun h => by simp [h] at hcur
    obtain ⟨a, t, rfl⟩ := List.exists_cons_of_ne_nil hne
    rw [hc.firstOk a rfl]
    simp
  · rw [if_neg hb]
    obtain ⟨l1, l2, hL⟩ := List.append_of_mem hcur
    rcases l2 with _ | ⟨b, l2x⟩
    · exfalso
      apply hb
      refine (hc.lastOk p.currpos ?_).symm
      rw [hL, List.getLast?_concat]
      rfl
    · have hAdj : Adj p p.currpos b := by
        have hch := hc.chain
        rw [hL] at hch
        obtain ⟨-, ch2, -⟩ := List.chain'_append.mp hch
        exact (List.chain'_cons.mp ch2).1
      rw [hAdj.1, hL]
      exact List.mem_append_right _ (by simp)

theorem histScan_ne_none (entries : List HistEntry) (id : Nat) : ∀ n lo k, lo ≤ k →
    k < lo + n → (entries.getD k ⟨0, 0⟩).id = id → histScan entries id lo n ≠ none := by
  intro n
  induction n with
  | zero =>
      intro lo k h1 h2
      omega
  | succ n ih =>
      intro lo k h1 h2 h3
      unfold histScan
      by_cases hlo : (entries.getD lo ⟨0, 0⟩).id = id
      · rw [if_pos hlo]
        simp
      · rw [if_neg hlo]
        have hk : lo + 1 ≤ k := by
          rcases Nat.eq_or_lt_of_le h1 with heq | hlt
          · exact absurd (heq ▸ h3) hlo
          · omega
        exact ih (lo + 1) k hk (by omega) h3

theorem histScan_some_lt (entries : List HistEntry) (id : Nat) : ∀ n lo i,
    histScan entries id lo n = some i → i < lo + n := by
  intro n
  induction n with
  | zero =>
      intro lo i h
      exact absurd h (by simp [histScan])
  | succ n ih =>
      intro lo i h
      unfold histScan at h
      by_cases hlo : (entries.getD lo ⟨0, 0⟩).id = id
      · rw [if_pos hlo] at h
        obtain rfl : lo = i := by simpa using h
        omega
      · rw [if_neg hlo] at h
        have := ih (lo + 1) i h
        omega

/-- An id stored anywhere inside the live window of a well-formed history
ring is found by `vf_find_id_buff_adv_hist3`. -/
theorem find_ne_of_mem_window (h : HistState) (id : Nat) (hwf : HistWF h) (k : Nat)
    (hk : k < h.size) (hid : (entryAt h ((h.firstpos + k) % 128)).id = id) :
    vf_find_id_buff_adv_hist3 h id ≠ 65535 := by
  obtain ⟨hlen, hf, hl, hs, hring⟩ := hwf
  unfold vf_find_id_buff_adv_hist3
  rw [if_neg (by omega)]
  unfold entryAt at hid
  by_cases hcase : h.firstpos < h.lastpos
  · rw [if_pos hcase]
    have hnowrap : h.firstpos + h.size < 128 := by omega
    have hpos : (h.firstpos + k) % 128 = h.firstpos + k := by omega
    rw [hpos] at hid
    rcases hscan : histScan h.entries id h.firstpos (h.lastpos - h.firstpos) with _ | i
    · exfalso
      exact histScan_ne_none h.entries id _ h.firstpos (h.firstpos + k)
        (by omega) (by omega) hid hscan
    · have := histScan_some_lt h.entries id _ _ _ hscan
      simp only
      omega
  · rw [if_neg hcase]
    have hwrap : 128 ≤ h.firstpos + h.size := by
      by_contra hcon
      push_neg at hcon
      have : h.lastpos = h.firstpos + h.size := by omega
      omega
    by_cases hsmall : h.firstpos + k < 128
    · have hpos : (h.firstpos + k) % 128 = h.firstpos + k := by omega
      rw [hpos] at hid
      rcases hscan : histScan h.entries id h.firstpos
          (MAX_HIST_ADV_BUFF_SIZE - h.firstpos) with _ | i
      · exfalso
        refine histScan_ne_none h.entries id _ h.firstpos (h.firstpos + k)
          (by omega) ?_ hid hscan
        unfold MAX_HIST_ADV_BUFF_SIZE
        omega
      · have := histScan_some_lt h.entries id _ _ _ hscan
        simp only [MAX_HIST_ADV_BUFF_SIZE] at this ⊢
        omega
    · have hpos : (h.firstpos + k) % 128 = h.firstpos + k - 128 := by omega
      rw [hpos] at hid
      have hlt2 : h.firstpos + k - 128 < h.lastpos := by omega
      rcases hscan : histScan h.entries id h.firstpos
          (MAX_HIST_ADV_BUFF_SIZE - h.firstpos) with _ | i
      · rcases hscan2 : histScan h.entries id 0 h.lastpos with _ | i
        · exfalso
          exact histScan_ne_none h.entries id _ 0 (h.firstpos + k - 128)
            (by omega) (by omega) hid hscan2
        · have := histScan_some_lt h.entries id _ _ _ hscan2
          simp only
          omega
      · have := histScan_some_lt h.entries id _ _ _ hscan
        simp only [MAX_HIST_ADV_BUFF_SIZE] at this ⊢
        omega

/-- After inserting an id into a well-formed history ring, it is found. -/
theorem find_add_self (h : HistState) (ids : Nat) (hwf : HistWF h) :
    vf_find_id_buff_adv_hist3 (vf_add_buff_adv_hist3 h ids) ids ≠ 65535 := by
  by_cases hfind : vf_find_id_buff_adv_hist3 h ids = 65535
  · obtain ⟨hlen, hf, hl, hs, hring⟩ := hwf
    have hwf' : HistWF (vf_add_buff_adv_hist3 h ids) :=
      histWF_add h ids ⟨hlen, hf, hl, hs, hring⟩
    rw [add_absent_eq h ids hfind] at hwf' ⊢
    by_cases hfull : h.size < 128
    · refine find_ne_of_mem_window _ ids hwf' h.size (by dsimp only; split_ifs <;> omega) ?_
      unfold entryAt
      dsimp only
      rw [if_pos (by omega : h.size ≠ 128),
        show (h.firstpos + h.size) % 128 = h.lastpos from hring.symm,
        getD_set_self _ _ _ _ (by omega)]
    · refine find_ne_of_mem_window _ ids hwf' 127 (by dsimp only; split_ifs <;> omega) ?_
      unfold entryAt
      dsimp only
      rw [if_neg (by omega : ¬ h.size ≠ 128)]
      have hlf : h.lastpos = h.firstpos := by omega
      have hidx : ((if h.lastpos + 1 = 128 then 0 else h.lastpos + 1) + 127) % 128 =
          h.lastpos := by split_ifs <;> omega
      rw [hidx, getD_set_self _ _ _ _ (by omega)]
  · rw [add_present_eq h ids hfind]
    exact hfind

/-- All slots except `c` agree on the free/used byte. -/
def SameB0E (c : Nat) (bs bs' : List Block) : Prop :=
  ∀ q, q ≠ c → (bs'.getD q freeBlock).b0 = (bs.getD q freeBlock).b0

theorem sameB0E_refl (c : Nat) (bs : List Block) : SameB0E c bs bs := fun _ _ => rfl

theorem sameB0E_set_at (c : Nat) (bs bs' : List Block) (v : Block) (h : SameB0E c bs bs') :
    SameB0E c bs (bs'.set c v) := by
  intro q hq
  rw [getD_set]
  split_ifs with hcc
  · exact absurd hcc.1 hq
  · exact h q hq

theorem sameB0E_set_pres (c : Nat) (bs bs' : List Block) (i : Nat) (v : Block)
    (h : SameB0E c bs bs') (hv : v.b0 = (bs'.getD i freeBlock).b0) :
    SameB0E c bs (bs'.set i v) := by
  intro q hq
  rw [getD_set]
  split_ifs with hcc
  · obtain ⟨rfl, -⟩ := hcc
    rw [hv]
    exact h q hq
  · exact h q hq

/-- Deleting the cursor block changes the free/used byte of no other slot. -/
theorem delete_b0E (s : Sys) (cond : Bool) :
    SameB0E s.pool.currpos s.pool.blocks (vf_delete_block_buffer3 s cond).pool.blocks := by
  unfold vf_delete_block_buffer3 setBlock blockAt
  dsimp only
  split_ifs
  · exact sameB0E_refl _ _
  · exact sameB0E_set_at _ _ _ _ (sameB0E_refl _ _)
  · exact sameB0E_set_pres _ _ _ _ _ (sameB0E_set_at _ _ _ _ (sameB0E_refl _ _)) rfl
  · exact sameB0E_set_pres _ _ _ _ _ (sameB0E_set_at _ _ _ _ (sameB0E_refl _ _)) rfl
  · exact sameB0E_set_pres _ _ _ _ _ (sameB0E_set_pres _ _ _ _ _
      (sameB0E_set_at _ _ _ _ (sameB0E_refl _ _)) rfl) rfl
  · exact sameB0E_set_at _ _ _ _ (sameB0E_refl _ _)
  · exact sameB0E_set_pres _ _ _ _ _ (sameB0E_set_at _ _ _ _ (sameB0E_refl _ _)) rfl
  · exact sameB0E_set_pres _ _ _ _ _ (sameB0E_set_at _ _ _ _ (sameB0E_refl _ _)) rfl
  · exact sameB0E_set_pres _ _ _ _ _ (sameB0E_set_pres _ _ _ _ _
      (sameB0E_set_at _ _ _ _ (sameB0E_refl _ _)) rfl) rfl

/-- The full scheduler-run invariant: the pool encodes a chain `L`, every
chained block has a sane budget and size byte, the cursor is on the chain,
and the history ring is well-formed. -/
def Inv (s : Sys) (L : List Nat) : Prop :=
  ChainRep s.pool L ∧ GoodBlocks s.pool L ∧ (L ≠ [] → s.pool.currpos ∈ L) ∧ HistWF s.hist

/-- The slot a scheduler tick hands to the transport, if any. -/
def emitPos (s : Sys) : Option Nat := (vf_relay_adv_data3 s).2.map Prod.fst

/-- The state after `n` scheduler ticks. -/
def tickN (n : Nat) (s : Sys) : Sys := tickState^[n] s

/-- One scheduler tick from a state whose chain is nonempty: the cursor
block is emitted; every other slot keeps its flag, budget, size byte and
payload; and the chain either loses the cursor slot (budget was 1: released
and migrated to history) or stays (budget decremented). -/
theorem tick_case (s : Sys) (L : List Nat) (hinv : Inv s L) (hne : L ≠ []) :
    ∃ L', Inv (tickState s) L' ∧
    emitPos s = some s.pool.currpos ∧
    (∀ q, q ≠ s.pool.currpos →
      (blockAt (tickState s).pool q).b3 = (blockAt s.pool q).b3 ∧
      (blockAt (tickState s).pool q).b0 = (blockAt s.pool q).b0 ∧
      (blockAt (tickState s).pool q).b4 = (blockAt s.pool q).b4 ∧
      (blockAt (tickState s).pool q).payload = (blockAt s.pool q).payload) ∧
    ((blockAt s.pool s.pool.currpos).b3 = 1 →
      L' = L.erase s.pool.currpos ∧
      (blockAt (tickState s).pool s.pool.currpos).b0 = 0 ∧
      vf_find_id_buff_adv_hist3 (tickState s).hist
        (blockIds (blockAt s.pool s.pool.currpos)) ≠ 65535) ∧
    ((blockAt s.pool s.pool.currpos).b3 ≠ 1 →
      L' = L ∧
      (blockAt (tickState s).pool s.pool.currpos).b3 =
        (blockAt s.pool s.pool.currpos).b3 - 1 ∧
      (blockAt (tickState s).pool s.pool.currpos).b4 =
        (blockAt s.pool s.pool.currpos).b4 ∧
      (blockAt (tickState s).pool s.pool.currpos).payload =
        (blockAt s.pool s.pool.currpos).payload) := by
  obtain ⟨hc, hg, hcur0, hhw⟩ := hinv
  have hcur := hcur0 hne
  have hposlt : s.pool.currpos < 16 := hc.bound _ hcur
  obtain ⟨hb3lo, hb3hi, hb4⟩ := hg _ hcur
  have hsz : s.pool.size > 0 := by
    have h5 := hc.len
    have h6 : L.length > 0 := List.length_pos.mpr hne
    omega
  have hemit := tick_emit_eq s hsz hb4
  have hd8 : dec8 (blockAt s.pool s.pool.currpos).b3 =
      (blockAt s.pool s.pool.currpos).b3 - 1 := dec8_eq_sub_one _ hb3lo hb3hi
  have hmid : blockAt (decCurr s).pool s.pool.currpos =
      { blockAt s.pool s.pool.currpos with
        b3 := dec8 (blockAt s.pool s.pool.currpos).b3 } := by
    unfold decCurr
    dsimp only
    rw [blockAt_setBlock, if_pos ⟨rfl, by rw [hc.blen]; exact hposlt⟩]
  have hmid_ne : ∀ q, q ≠ s.pool.currpos → blockAt (decCurr s).pool q = blockAt s.pool q := by
    intro q hq
    unfold decCurr
    dsimp only
    exact blockAt_setBlock_ne _ _ _ _ hq
  have hcd := chainRep_decCurr s L hc
  have hcurd : (decCurr s).pool.currpos ∈ L := hcur
  have hdsz : (decCurr s).pool.size = s.pool.size := rfl
  by_cases h1 : (blockAt s.pool s.pool.currpos).b3 = 1
  · have h0 : dec8 (blockAt s.pool s.pool.currpos).b3 = 0 := by rw [hd8, h1]
    have heq : tickState s = vf_delete_block_buffer3 (decCurr s) true := by
      unfold tickState vf_relay_adv_data3 at hemit ⊢
      rw [hemit, if_pos h0]
    have hemitv : emitPos s = some s.pool.currpos := by
      unfold emitPos
      rw [hemit, if_pos h0]
      rfl
    have hdel := delete_chainRep (decCurr s) true L hcd hcurd
    have hids : blockIds (blockAt (decCurr s).pool (decCurr s).pool.currpos) =
        blockIds (blockAt s.pool s.pool.currpos) := by
      show blockIds (blockAt (decCurr s).pool s.pool.currpos) = _
      rw [hmid]
      rfl
    have hhist : (tickState s).hist =
        vf_add_buff_adv_hist3 s.hist (blockIds (blockAt s.pool s.pool.currpos)) := by
      rw [heq, delete_hist (decCurr s) true (by omega), if_pos rfl, hids]
      rfl
    refine ⟨L.erase s.pool.currpos, ⟨?_, ?_, ?_, ?_⟩, hemitv, ?_, ?_,
      fun hcon => absurd h1 hcon⟩
    · rw [heq]
      exact hdel.1
    · rw [heq]
      refine goodBlocks_delete (decCurr s) true L hc.nodup ?_
      intro q hq hqne
      rw [hmid_ne q hqne]
      exact hg q hq
    · intro hne2
      rw [heq]
      exact hdel.2.1 hne2
    · rw [hhist]
      exact histWF_add _ _ hhw
    · intro q hq
      obtain ⟨g3, g4, gp⟩ := delete_preserves_blockAt (decCurr s) true q
      have hb0 := delete_b0E (decCurr s) true q hq
      rw [heq]
      rw [g3, g4, gp, hmid_ne q hq]
      refine ⟨rfl, ?_, rfl, rfl⟩
      show ((vf_delete_block_buffer3 (decCurr s) true).pool.blocks.getD q freeBlock).b0 = _
      rw [hb0]
      have := hmid_ne q hq
      unfold blockAt at this
      rw [this]
      rfl
    · intro _
      refine ⟨rfl, ?_, ?_⟩
      · rw [heq]
        exact hdel.2.2
      · rw [hhist]
        exact find_add_self s.hist _ hhw
  · have h0 : dec8 (blockAt s.pool s.pool.currpos).b3 ≠ 0 := by omega
    have heq : tickState s = { decCurr s with
        pool := { (decCurr s).pool with currpos := advCurr (decCurr s).pool } } := by
      unfold tickState vf_relay_adv_data3 at hemit ⊢
      rw [hemit, if_neg h0]
    have hemitv : emitPos s = some s.pool.currpos := by
      unfold emitPos
      rw [hemit, if_neg h0]
      rfl
    have hba : ∀ q, blockAt (tickState s).pool q = blockAt (decCurr s).pool q := by
      intro q
      rw [heq]
      rfl
    refine ⟨L, ⟨?_, ?_, ?_, ?_⟩, hemitv, ?_, fun hcon => absurd hcon h1, ?_⟩
    · refine ⟨hcd.nodup, hcd.bound, by rw [heq]; exact hcd.blen, by rw [heq]; exact hcd.len,
        by rw [heq]; exact hcd.firstOk, by rw [heq]; exact hcd.lastOk, ?_, ?_⟩
      · refine chain'_adj_transfer (decCurr s).pool _ _ hcd.nodup hcd.chain ?_ ?_
        · intro x _ _
          rw [hba x]
        · intro x _ _
          rw [hba x]
      · intro q hq
        rw [hba q]
        exact hcd.usedIff q hq
    · intro q hq
      rw [hba q]
      by_cases hqc : q = s.pool.currpos
      · rw [hqc, hmid]
        refine ⟨by dsimp only; omega, by dsimp only; omega, ?_⟩
        dsimp only
        exact hb4
      · rw [hmid_ne q hqc]
        exact hg q hq
    · intro _
      rw [heq]
      show advCurr (decCurr s).pool ∈ L
      exact advCurr_mem (decCurr s).pool L hcd hcurd
    · rw [heq]
      exact hhw
    · intro q hq
      rw [hba q, hmid_ne q hq]
      exact ⟨rfl, rfl, rfl, rfl⟩
    · intro _
      rw [hba _, hmid, ← hd8]
      exact ⟨rfl, rfl, rfl, rfl⟩

/-- The identity-and-budget fields of a block: flag, budget, size byte and
payload (the link pointers b1/b2 may be rewired by a neighbour's splice). -/
def SameBlk (x y : Block) : Prop :=
  x.b3 = y.b3 ∧ x.b0 = y.b0 ∧ x.b4 = y.b4 ∧ x.payload = y.payload

theorem sameBlk_refl (x : Block) : SameBlk x x := ⟨rfl, rfl, rfl, rfl⟩

theorem sameBlk_trans {x y z : Block} (h1 : SameBlk x y) (h2 : SameBlk y z) :
    SameBlk x z :=
  ⟨h1.1.trans h2.1, h1.2.1.trans h2.2.1, h1.2.2.1.trans h2.2.2.1,
   h1.2.2.2.trans h2.2.2.2⟩

/-- Total remaining broadcast budget of the listed slots: the termination
measure for the round-robin scheduler. -/
def chainMeasure (p : PoolState) (l : List Nat) : Nat :=
  (l.map (fun q => (blockAt p q).b3)).sum

theorem sum_map_erase (f : Nat → Nat) (l : List Nat) (c : Nat)
    (hnd : l.Nodup) (hc : c ∈ l) :
    (l.map f).sum = f c + ((l.erase c).map f).sum := by
  obtain ⟨l1, l2, rfl⟩ := List.append_of_mem hc
  have hcnot : c ∉ l1 := fun hmem =>
    (List.disjoint_of_nodup_append hnd) hmem (List.mem_cons_self c l2)
  rw [List.erase_append_right _ hcnot, List.erase_cons_head]
  simp [List.sum_append]
  omega

theorem tickN_zero (s : Sys) : tickN 0 s = s := rfl

theorem tickN_succ (n : Nat) (s : Sys) : tickN (n+1) s = tickN n (tickState s) :=
  Function.iterate_succ_apply tickState n s

theorem tickN_add (a b : Nat) (s : Sys) : tickN (a + b) s = tickN a (tickN b s) :=
  Function.iterate_add_apply tickState a b s

theorem tickN_succ' (n : Nat) (s : Sys) : tickN (n+1) s = tickState (tickN n s) :=
  Function.iterate_succ_apply' tickState n s

/-- Progress: while the chain invariant holds and slot `p` is on the chain,
the round-robin cursor reaches `p` after finitely many ticks, during which
`p` is never the emitted slot and its flag, budget, size byte and payload
are untouched. -/
theorem reach_cursor (p : Nat) : ∀ (n : Nat) (s : Sys) (L : List Nat),
    Inv s L → p ∈ L → chainMeasure s.pool (L.erase p) ≤ n →
    ∃ m L2, Inv (tickN m s) L2 ∧ p ∈ L2 ∧ (tickN m s).pool.currpos = p ∧
      (∀ k, k < m → emitPos (tickN k s) ≠ some p) ∧
      (∀ k, k ≤ m → SameBlk (blockAt (tickN k s).pool p) (blockAt s.pool p)) := by
  intro n
  induction n with
  | zero =>
    intro s L hinv hp hm
    by_cases hcp : s.pool.currpos = p
    · exact ⟨0, L, hinv, hp, hcp, fun k hk => absurd hk (Nat.not_lt_zero k),
        fun k hk => by rw [Nat.le_zero.mp hk]; exact sameBlk_refl _⟩
    · exfalso
      have hcur : s.pool.currpos ∈ L := hinv.2.2.1 (List.ne_nil_of_mem hp)
      have hce : s.pool.currpos ∈ L.erase p :=
        (List.Nodup.mem_erase_iff hinv.1.nodup).mpr ⟨hcp, hcur⟩
      have hgb := hinv.2.1 _ hcur
      have h2 := sum_map_erase (fun q => (blockAt s.pool q).b3) (L.erase p)
        s.pool.currpos (List.Nodup.erase p hinv.1.nodup) hce
      dsimp only at h2
      unfold chainMeasure at hm
      omega
  | succ n ih =>
    intro s L hinv hp hm
    by_cases hcp : s.pool.currpos = p
    · exact ⟨0, L, hinv, hp, hcp, fun k hk => absurd hk (Nat.not_lt_zero k),
        fun k hk => by rw [Nat.le_zero.mp hk]; exact sameBlk_refl _⟩
    · have hne : L ≠ [] := List.ne_nil_of_mem hp
      have hpc : p ≠ s.pool.currpos := fun h => hcp h.symm
      obtain ⟨L', hinv', hemitv, hpres, hdel, hadv⟩ := tick_case s L hinv hne
      have hndL : L.Nodup := hinv.1.nodup
      have hndE : (L.erase p).Nodup := List.Nodup.erase p hndL
      have hcur : s.pool.currpos ∈ L := hinv.2.2.1 hne
      have hce : s.pool.currpos ∈ L.erase p :=
        (List.Nodup.mem_erase_iff hndL).mpr ⟨hcp, hcur⟩
      have hgb := hinv.2.1 _ hcur
      have hsplit := sum_map_erase (fun q => (blockAt s.pool q).b3) (L.erase p)
        s.pool.currpos hndE hce
      dsimp only at hsplit
      have hptw : ∀ q ∈ (L.erase p).erase s.pool.currpos,
          (blockAt (tickState s).pool q).b3 = (blockAt s.pool q).b3 := by
        intro q hq
        have hqc : q ≠ s.pool.currpos := ((List.Nodup.mem_erase_iff hndE).mp hq).1
        exact (hpres q hqc).1
      have hmapeq : (((L.erase p).erase s.pool.currpos).map
            (fun q => (blockAt (tickState s).pool q).b3)).sum =
          (((L.erase p).erase s.pool.currpos).map
            (fun q => (blockAt s.pool q).b3)).sum := by
        rw [List.map_congr_left hptw]
      have hpL' : p ∈ L' := by
        by_cases hb3 : (blockAt s.pool s.pool.currpos).b3 = 1
        · rw [(hdel hb3).1]
          exact (List.mem_erase_of_ne hpc).mpr hp
        · rw [(hadv hb3).1]
          exact hp
      have hm' : chainMeasure (tickState s).pool (L'.erase p) ≤ n := by
        by_cases hb3 : (blockAt s.pool s.pool.currpos).b3 = 1
        · rw [(hdel hb3).1]
          unfold chainMeasure at hm ⊢
          rw [List.erase_comm]
          have h2 := sum_map_erase (fun q => (blockAt (tickState s).pool q).b3)
            (L.erase p) s.pool.currpos hndE hce
          dsimp only at h2
          omega
        · rw [(hadv hb3).1]
          unfold chainMeasure at hm ⊢
          have h2 := sum_map_erase (fun q => (blockAt (tickState s).pool q).b3)
            (L.erase p) s.pool.currpos hndE hce
          dsimp only at h2
          have h3 := (hadv hb3).2.1
          omega
      obtain ⟨m, L2, hI, hpL2, hcurm, hnoem, hpresk⟩ := ih (tickState s) L' hinv' hpL' hm'
      refine ⟨m + 1, L2, ?_, hpL2, ?_, ?_, ?_⟩
      · rw [tickN_succ]
        exact hI
      · rw [tickN_succ]
        exact hcurm
      · intro k hk
        cases k with
        | zero =>
          show emitPos s ≠ some p
          rw [hemitv]
          intro h
          exact hcp (Option.some.inj h)
        | succ j =>
          rw [tickN_succ]
          exact hnoem j (by omega)
      · intro k hk
        cases k with
        | zero => exact sameBlk_refl _
        | succ j =>
          rw [tickN_succ]
          exact sameBlk_trans (hpresk j (by omega)) (hpres p hpc)

/-- A slot that is off the chain is never the emitted slot of any later
tick: the scheduler only ever emits the cursor, and the cursor stays on the
chain. -/
theorem never_emit (p : Nat) : ∀ (k : Nat) (s : Sys) (L : List Nat),
    Inv s L → p ∉ L → emitPos (tickN k s) ≠ some p := by
  intro k
  induction k with
  | zero =>
    intro s L hinv hp
    by_cases hL : L = []
    · have hsz : s.pool.size = 0 := by
        have h := hinv.1.len
        rw [hL] at h
        simpa using h.symm
      show emitPos s ≠ some p
      unfold emitPos vf_relay_adv_data3
      rw [hsz]
      simp [relayLoop]
    · obtain ⟨L', _, hemitv, _⟩ := tick_case s L hinv hL
      show emitPos s ≠ some p
      rw [hemitv]
      intro h
      exact hp ((Option.some.inj h) ▸ hinv.2.2.1 hL)
  | succ k ih =>
    intro s L hinv hp
    rw [tickN_succ]
    by_cases hL : L = []
    · have hsz : s.pool.size = 0 := by
        have h := hinv.1.len
        rw [hL] at h
        simpa using h.symm
      have hts : tickState s = s := by
        unfold tickState vf_relay_adv_data3
        rw [hsz]
        rfl
      rw [hts]
      exact ih s L hinv hp
    · obtain ⟨L', hinv', _, _, hdel, hadv⟩ := tick_case s L hinv hL
      have hpL' : p ∉ L' := by
        by_cases hb3 : (blockAt s.pool s.pool.currpos).b3 = 1
        · rw [(hdel hb3).1]
          exact fun hmem => hp (List.mem_of_mem_erase hmem)
        · rw [(hadv hb3).1]
          exact hp
      exact ih (tickState s) L' hinv' hpL'

/-- How many of the first `n` scheduler ticks from `s` emit the record
stored at slot `p`. -/
def countEmit (s : Sys) (p : Nat) (n : Nat) : Nat :=
  (List.range n).countP (fun k => decide (emitPos (tickN k s) = some p))

theorem countEmit_succ (s : Sys) (p n : Nat) :
    countEmit s p (n+1) =
      countEmit s p n + (if emitPos (tickN n s) = some p then 1 else 0) := by
  unfold countEmit
  rw [List.range_succ, List.countP_append]
  simp [List.countP_cons]

theorem countEmit_stable (s : Sys) (p : Nat) (a : Nat) :
    ∀ b, a ≤ b → (∀ k, a ≤ k → k < b → emitPos (tickN k s) ≠ some p) →
    countEmit s p b = countEmit s p a := by
  intro b
  induction b with
  | zero =>
    intro hab _
    rw [Nat.le_zero.mp hab]
  | succ b ih =>
    intro hab hno
    by_cases hab2 : a = b + 1
    · rw [hab2]
    · have hab3 : a ≤ b := by omega
      rw [countEmit_succ, ih hab3 (fun k hk1 hk2 => hno k hk1 (by omega)),
        if_neg (hno b hab3 (by omega))]
      omega

theorem countEmit_zero (s : Sys) (p : Nat) : countEmit s p 0 = 0 := rfl

/-- C2: a record admitted to the block pool with remaining-broadcast budget
2 is emitted by the relay scheduler exactly 2 times and then released: its
slot stays live (flag nonzero) up to the releasing tick, is free afterwards,
its identity is then present in the history cache, and no later tick ever
emits it again, so its total emission count stays exactly 2 forever —
assuming the chain invariant and no intervening eviction (no other
operation interleaves with the ticks). -/
theorem C2_broadcast_exactly_twice (s : Sys) (L : List Nat) (p : Nat)
    (hinv : Inv s L) (hp : p ∈ L) (hb3 : (blockAt s.pool p).b3 = 2) :
    ∃ N, (∀ k, k < N → (blockAt (tickN k s).pool p).b0 ≠ 0) ∧
      (blockAt (tickN N s).pool p).b0 = 0 ∧
      vf_find_id_buff_adv_hist3 (tickN N s).hist
        (blockIds (blockAt s.pool p)) ≠ 65535 ∧
      countEmit s p N = 2 ∧
      (∀ M, N ≤ M → countEmit s p M = 2) := by
  have hb0s : (blockAt s.pool p).b0 ≠ 0 :=
    (hinv.1.usedIff p (hinv.1.bound p hp)).mpr hp
  obtain ⟨m1, L1, hI1, hp1, hcur1, hnoem1, hpres1⟩ :=
    reach_cursor p (chainMeasure s.pool (L.erase p)) s L hinv hp (le_refl _)
  have hne1 : L1 ≠ [] := List.ne_nil_of_mem hp1
  obtain ⟨L1b, hinv1, hemit1, hpres1t, hdel1, hadv1⟩ :=
    tick_case (tickN m1 s) L1 hI1 hne1
  have hb3s1 : (blockAt (tickN m1 s).pool p).b3 = 2 :=
    (hpres1 m1 (le_refl _)).1.trans hb3
  have hcurb3 : (blockAt (tickN m1 s).pool (tickN m1 s).pool.currpos).b3 = 2 := by
    rw [hcur1]
    exact hb3s1
  obtain ⟨hL1b, hb3dec, hb4p, hpayp⟩ := hadv1 (by omega)
  have hs2 : tickN (m1+1) s = tickState (tickN m1 s) := tickN_succ' m1 s
  have hinv2 : Inv (tickN (m1+1) s) L1 := by
    rw [hs2]
    exact hL1b ▸ hinv1
  have hb3dec2 : (blockAt (tickState (tickN m1 s)).pool p).b3 =
      (blockAt (tickN m1 s).pool p).b3 - 1 := by
    rw [← hcur1]
    exact hb3dec
  have hpayp2 : (blockAt (tickState (tickN m1 s)).pool p).payload =
      (blockAt (tickN m1 s).pool p).payload := by
    rw [← hcur1]
    exact hpayp
  have hb3s2 : (blockAt (tickN (m1+1) s).pool p).b3 = 1 := by
    rw [hs2, hb3dec2, hb3s1]
  have hpay2 : (blockAt (tickN (m1+1) s).pool p).payload =
      (blockAt s.pool p).payload := by
    rw [hs2, hpayp2]
    exact (hpres1 m1 (le_refl _)).2.2.2
  have hb0s2 : (blockAt (tickN (m1+1) s).pool p).b0 ≠ 0 :=
    (hinv2.1.usedIff p (hinv2.1.bound p hp1)).mpr hp1
  obtain ⟨m2, L2, hI2, hp2, hcur2, hnoem2, hpres2⟩ :=
    reach_cursor p (chainMeasure (tickN (m1+1) s).pool (L1.erase p))
      (tickN (m1+1) s) L1 hinv2 hp1 (le_refl _)
  have hshift : ∀ j, tickN (m1 + 1 + j) s = tickN j (tickN (m1+1) s) := by
    intro j
    rw [show m1 + 1 + j = j + (m1 + 1) from by omega, tickN_add]
  have hne2 : L2 ≠ [] := List.ne_nil_of_mem hp2
  obtain ⟨L2b, hinv3, hemit2, hpres2t, hdel2, hadv2⟩ :=
    tick_case (tickN m2 (tickN (m1+1) s)) L2 hI2 hne2
  have hb3s3 : (blockAt (tickN m2 (tickN (m1+1) s)).pool p).b3 = 1 :=
    (hpres2 m2 (le_refl _)).1.trans hb3s2
  have hcurb3s3 : (blockAt (tickN m2 (tickN (m1+1) s)).pool
      (tickN m2 (tickN (m1+1) s)).pool.currpos).b3 = 1 := by
    rw [hcur2]
    exact hb3s3
  obtain ⟨hL2b, hb0z, hfind⟩ := hdel2 hcurb3s3
  have hs3 : tickN (m1+1+m2) s = tickN m2 (tickN (m1+1) s) := hshift m2
  have hs4 : tickN (m1+1+m2+1) s = tickState (tickN m2 (tickN (m1+1) s)) := by
    rw [tickN_succ' (m1+1+m2) s, hs3]
  have hb0N : (blockAt (tickN (m1+1+m2+1) s).pool p).b0 = 0 := by
    rw [hs4, ← hcur2]
    exact hb0z
  have hpay3 : (blockAt (tickN m2 (tickN (m1+1) s)).pool p).payload =
      (blockAt s.pool p).payload :=
    ((hpres2 m2 (le_refl _)).2.2.2).trans hpay2
  have hids3 : blockIds (blockAt (tickN m2 (tickN (m1+1) s)).pool p) =
      blockIds (blockAt s.pool p) := by
    unfold blockIds
    rw [hpay3]
  have hfindN : vf_find_id_buff_adv_hist3 (tickN (m1+1+m2+1) s).hist
      (blockIds (blockAt s.pool p)) ≠ 65535 := by
    rw [hs4, ← hids3, ← hcur2]
    exact hfind
  have hc0 : countEmit s p m1 = 0 := by
    rw [countEmit_stable s p 0 m1 (Nat.zero_le _) (fun k _ hk => hnoem1 k hk),
      countEmit_zero]
  have hemitm1 : emitPos (tickN m1 s) = some p := by
    rw [hemit1, hcur1]
  have hc1 : countEmit s p (m1+1) = 1 := by
    rw [countEmit_succ, hc0, if_pos hemitm1]
  have hnoem_mid : ∀ k, m1+1 ≤ k → k < m1+1+m2 →
      emitPos (tickN k s) ≠ some p := by
    intro k hk1 hk2
    have hj : k = m1 + 1 + (k - (m1+1)) := by omega
    rw [hj, hshift]
    exact hnoem2 _ (by omega)
  have hc2 : countEmit s p (m1+1+m2) = 1 := by
    rw [countEmit_stable s p (m1+1) (m1+1+m2) (by omega) hnoem_mid, hc1]
  have hemitm3 : emitPos (tickN (m1+1+m2) s) = some p := by
    rw [hs3, hemit2, hcur2]
  have hcN : countEmit s p (m1+1+m2+1) = 2 := by
    rw [countEmit_succ, hc2, if_pos hemitm3]
  have hpnot : p ∉ L2b := by
    rw [hL2b, hcur2]
    intro hmem
    exact absurd rfl ((List.Nodup.mem_erase_iff hI2.1.nodup).mp hmem).1
  have hinv4 : Inv (tickN (m1+1+m2+1) s) L2b := by
    rw [hs4]
    exact hinv3
  have hafter : ∀ k, m1+1+m2+1 ≤ k → emitPos (tickN k s) ≠ some p := by
    intro k hk
    have hj : k = (k - (m1+1+m2+1)) + (m1+1+m2+1) := by omega
    rw [hj, tickN_add]
    exact never_emit p _ (tickN (m1+1+m2+1) s) L2b hinv4 hpnot
  have hstab : ∀ M, m1+1+m2+1 ≤ M → countEmit s p M = 2 := by
    intro M hM
    rw [countEmit_stable s p (m1+1+m2+1) M hM (fun k hk1 _ => hafter k hk1), hcN]
  refine ⟨m1+1+m2+1, ?_, hb0N, hfindN, hcN, hstab⟩
  intro k hk
  rcases Nat.lt_or_ge k (m1+1) with hk1 | hk1
  · rw [(hpres1 k (by omega)).2.1]
    exact hb0s
  · have hj : k = m1 + 1 + (k - (m1+1)) := by omega
    rw [hj, hshift]
    rw [(hpres2 (k - (m1+1)) (by omega)).2.1]
    exact hb0s2

/-- The state after admitting the single transit record `dataA` to the boot
state: one live pool block at slot 0 with remaining-broadcast budget 2. -/
def sysA1 : Sys := (ingestClassifier 0 sys0 dataA).1

set_option maxRecDepth 4000 in
theorem C2_broadcast_exactly_twice_witness :
    ∃ N, (∀ k, k < N → (blockAt (tickN k sysA1).pool 0).b0 ≠ 0) ∧
      (blockAt (tickN N sysA1).pool 0).b0 = 0 ∧
      vf_find_id_buff_adv_hist3 (tickN N sysA1).hist
        (blockIds (blockAt sysA1.pool 0)) ≠ 65535 ∧
      countEmit sysA1 0 N = 2 ∧
      (∀ M, N ≤ M → countEmit sysA1 0 M = 2) :=
  C2_broadcast_exactly_twice sysA1 [0] 0
    ⟨⟨by decide, by decide, by decide, by decide,
      by intro x hx; simp at hx; subst hx; decide,
      by intro x hx; simp at hx; subst hx; decide,
      List.chain'_singleton _, by decide⟩,
      by unfold GoodBlocks; decide, fun _ => by decide,
      by unfold HistWF; decide⟩ (by decide) (by decide)

end CPSWSAN
